import Mathlib

/-!
# Typed BLOB headers of mksqlite (`typed_blobs.hpp`)

A shallow embedding of the packed header structures `TypedBLOBHeaderBase`,
`TypedBLOBHeaderCompressed` and the template `TBHData<HeaderBaseType>`, together with
the operations that construct and validate them.

* A structure is a typed view over raw memory, so memory is modelled as a map from the
  byte offset relative to `this` to the byte stored there.
* Integer members are stored through their byte representation in the byte order of the
  host; conversions between C integer types are written out as explicit reductions.
* The process-wide variables `TBH_platform` and `TBH_endian` and the facts about the
  MATLAB runtime that the header relies on are passed explicitly as a `Host`.
* Values of type `mwSize` and `size_t` are natural numbers; `mwSize` is the 64-bit
  `size_t`, so an `int32_t` read from a container is widened modulo `2^64`. The
  offsets of members are exact; where the source computes an index or an address from
  an `mwSize` argument (`dataOffset`, `getData`), the arithmetic wraps modulo `2^64`.
* The two `assert`s of `TBHData::init` hold for every unsigned `nDims` and non-null
  `pSize` and have no effect on the result.
-/

namespace TypedBlobs

/-! ## Memory and C integers -/

/-- A memory region, addressed by the byte offset from the start of the structure. -/
abbrev Mem := Nat → Nat

/-- The conversion `(int16_t)v`. -/
def toInt16 (v : Int) : Int := (v + 32768) % 65536 - 32768

/-- The conversion `(int32_t)v`. -/
def toInt32 (v : Int) : Int := (v + 2147483648) % 4294967296 - 2147483648

/-- The conversion `(size_t)v`, which is also `(mwSize)v` on a 64-bit MATLAB. -/
def toSizeT (v : Int) : Nat := (v % 18446744073709551616).toNat

/-- Assignment of one byte. -/
def store (m : Mem) (a b : Nat) : Mem := fun x => if x = a then b else m x

/-- Consecutive bytes written from address `a` upwards. -/
def storeBytes (m : Mem) (a : Nat) : List Nat → Mem
  | [] => m
  | b :: bs => storeBytes (store m a b) (a + 1) bs

/-- The `n` consecutive bytes found from address `a` upwards. -/
def loadBytes (m : Mem) (a : Nat) : Nat → List Nat
  | 0 => []
  | n + 1 => m a :: loadBytes m (a + 1) n

/-- The `n` low-order base-256 digits of `u`, least significant first. -/
def leBytes : Nat → Nat → List Nat
  | 0, _ => []
  | n + 1, u => u % 256 :: leBytes n (u / 256)

/-- The number whose base-256 digits, least significant first, are given. -/
def leValue : List Nat → Nat
  | [] => 0
  | b :: bs => b + 256 * leValue bs

/-- The object representation of an `n`-byte two's complement integer in host byte order. -/
def intBytes (bigEndian : Bool) (n : Nat) (v : Int) : List Nat :=
  let bs := leBytes n (v % (256 ^ n : Nat)).toNat
  if bigEndian then bs.reverse else bs

/-- The value of the `n`-byte two's complement integer with the given object representation. -/
def intValue (bigEndian : Bool) (n : Nat) (bs : List Nat) : Int :=
  let u := leValue (if bigEndian then bs.reverse else bs)
  if 2 * u < 256 ^ n then (u : Int) else (u : Int) - (256 ^ n : Nat)

/-- Assignment to an `n`-byte integer member at offset `a`. -/
def storeInt (bigEndian : Bool) (m : Mem) (a n : Nat) (v : Int) : Mem :=
  storeBytes m a (intBytes bigEndian n v)

/-- The value read from an `n`-byte integer member at offset `a`. -/
def loadInt (bigEndian : Bool) (m : Mem) (a n : Nat) : Int :=
  intValue bigEndian n (loadBytes m a n)

/-! ## C strings -/

/-- A pointer into memory at offset `a`. -/
def fieldPtr (m : Mem) (a : Nat) : Nat → Nat := fun i => m (a + i)

/-- A pointer to the first element of a global array; storage past the initialiser is zero. -/
def arrayPtr (l : List Nat) : Nat → Nat := fun i => l.getD i 0

/-- The libc `strcpy(dst, src)`: the characters of `src` up to and including the
terminating NUL are copied. The source is given by the bytes of its array; the string
ends at the first NUL, and at the end of the list when the list holds none. -/
def strcpy (m : Mem) (dst : Nat) : List Nat → Mem
  | [] => store m dst 0
  | c :: cs => if c = 0 then store m dst 0 else strcpy (store m dst c) (dst + 1) cs

/-- The libc `strncpy(dst, src, n)`: at most `n` characters are copied, and when `src`
ends earlier the rest of the `n` bytes is filled with NUL. -/
def strncpy (m : Mem) (dst : Nat) : List Nat → Nat → Mem
  | _, 0 => m
  | [], n + 1 => strncpy (store m dst 0) (dst + 1) [] n
  | c :: cs, n + 1 =>
    if c = 0 then strncpy (store m dst 0) (dst + 1) [] n
    else strncpy (store m dst c) (dst + 1) cs n

/-- The libc `strncmp(s1, s2, n)` continued from index `i` with `n` characters left:
the difference of the first pair of differing characters, `0` when a common NUL or the
end of the `n` characters is reached first. -/
def strncmpFrom (s1 s2 : Nat → Nat) (i : Nat) : Nat → Int
  | 0 => 0
  | n + 1 =>
    if s1 i ≠ s2 i then (s1 i : Int) - (s2 i : Int)
    else if s1 i = 0 then 0
    else strncmpFrom s1 s2 (i + 1) n

/-- The libc `strncmp(s1, s2, n)`. -/
def strncmp (s1 s2 : Nat → Nat) (n : Nat) : Int := strncmpFrom s1 s2 0 n

/-- The string a `char` pointer denotes when at most `n` characters may be inspected:
the characters before the first NUL among the first `n`. -/
def cstring (p : Nat → Nat) (n : Nat) : List Nat :=
  ((List.range n).map p).takeWhile (fun c => c ≠ 0)

/-! ## Constants and process-wide state -/

/-- Length of the magic member. -/
def TBH_MAGIC_MAXLEN : Nat := 14
/-- Length of the platform member. -/
def TBH_PLATFORM_MAXLEN : Nat := 11
/-- Length of the compression member. -/
def TBH_COMPRID_MAXLEN : Nat := 12
/-- Length of the endian array. -/
def TBH_ENDIAN_MAXLEN : Nat := 2

/-- The array `TBH_MAGIC[TBH_MAGIC_MAXLEN] = "mkSQLite.tbh\0"`: twelve characters, the
NUL written in the literal and the NUL that terminates the literal. -/
def TBH_MAGIC : List Nat := [109, 107, 83, 81, 76, 105, 116, 101, 46, 116, 98, 104, 0, 0]

/-- The state outside the header that its operations read: the arrays `TBH_platform`
and `TBH_endian` set by `typed_blobs_init`, the byte order in which the machine stores
integer members, and the element size MATLAB reports for a class id. -/
structure Host where
  /-- Contents of `char TBH_platform[TBH_PLATFORM_MAXLEN]`. -/
  TBH_platform : List Nat
  /-- Contents of `char TBH_endian[TBH_ENDIAN_MAXLEN]`. -/
  TBH_endian : List Nat
  /-- Whether integer members are stored most significant byte first. -/
  bigEndian : Bool
  /-- The result of `mxGetElementSize` for an array of the given class id. -/
  mxGetElementSize : Int → Nat

/-! ## Layout of the packed structures -/

/-- Offset of the `k`-th member of a packed structure whose members have the given
sizes: with `pack(1)` no padding is inserted, so it is the total size of the members
declared before it. -/
def packedOffset (members : List Nat) (k : Nat) : Nat := (members.take k).sum

/-- Sizes of the members `m_magic`, `m_ver`, `m_clsid`, `m_platform`, `m_endian` of
`TypedBLOBHeaderBase` in declaration order. -/
def TypedBLOBHeaderBase.members : List Nat :=
  [TBH_MAGIC_MAXLEN, 2, 4, TBH_PLATFORM_MAXLEN, 1]

/-- Sizes of the members of `TypedBLOBHeaderCompressed`: those of the base, then
`m_compression[12]`. -/
def TypedBLOBHeaderCompressed.members : List Nat :=
  TypedBLOBHeaderBase.members ++ [12]

/-- Offset of `m_magic`. -/
def offsetof_m_magic : Nat := packedOffset TypedBLOBHeaderBase.members 0
/-- Offset of `m_ver`. -/
def offsetof_m_ver : Nat := packedOffset TypedBLOBHeaderBase.members 1
/-- Offset of `m_clsid`. -/
def offsetof_m_clsid : Nat := packedOffset TypedBLOBHeaderBase.members 2
/-- Offset of `m_platform`. -/
def offsetof_m_platform : Nat := packedOffset TypedBLOBHeaderBase.members 3
/-- Offset of `m_endian`. -/
def offsetof_m_endian : Nat := packedOffset TypedBLOBHeaderBase.members 4
/-- Offset of `m_compression` in `TypedBLOBHeaderCompressed`. -/
def offsetof_m_compression : Nat := packedOffset TypedBLOBHeaderCompressed.members 5

/-- The two header types the template `TBHData` is instantiated with. -/
inductive HeaderBaseType where
  | TypedBLOBHeaderBase
  | TypedBLOBHeaderCompressed
  deriving DecidableEq, Repr

/-- The value of `sizeof(HeaderBaseType)`. -/
def HeaderBaseType.sizeof : HeaderBaseType → Nat
  | .TypedBLOBHeaderBase => TypedBLOBHeaderBase.members.sum
  | .TypedBLOBHeaderCompressed => TypedBLOBHeaderCompressed.members.sum

/-- Offset of the member `int32_t m_nDims[1]` of `TBHData<H>`, which follows the header. -/
def TBHData.offsetof_m_nDims (H : HeaderBaseType) : Nat := H.sizeof

/-- The value of `sizeof(TBHData<H>)`: the header and the one declared element of `m_nDims`. -/
def TBHData.sizeof (H : HeaderBaseType) : Nat := H.sizeof + 4 * 1

/-- Offset of the element `m_nDims[i]` of `TBHData<H>`. -/
def TBHData.offsetof_m_nDims_at (H : HeaderBaseType) (i : Nat) : Nat :=
  TBHData.offsetof_m_nDims H + 4 * i

/-- The number of values of the 64-bit types `size_t` and `mwSize`, and of addresses. -/
def SIZE_T_RANGE : Nat := 18446744073709551616

/-- The address `&p->m_nDims[i]` for a `TBHData<H>` placed at address `p`, in 64-bit
address arithmetic. -/
def TBHData.addressof_m_nDims (H : HeaderBaseType) (p i : Nat) : Nat :=
  (p + TBHData.offsetof_m_nDims H + 4 * i) % SIZE_T_RANGE

/-- The static `TBHData::dataOffset(nDims)`: with the structure placed at address 1024,
the distance in bytes from `p` to `&p->m_nDims[nDims+1]`, as a `size_t`. The index
`nDims+1` is computed in `mwSize` and wraps, and so does the address. -/
def TBHData.dataOffset (H : HeaderBaseType) (nDims : Nat) : Nat :=
  let p : Nat := 1024
  (TBHData.addressof_m_nDims H p ((nDims + 1) % SIZE_T_RANGE) + SIZE_T_RANGE - p)
    % SIZE_T_RANGE

/-! ## MATLAB class ids and arrays -/

/-- The enumerator `mxUNKNOWN_CLASS` of `mxClassID` (values as in MATLAB's `matrix.h`). -/
def mxUNKNOWN_CLASS : Int := 0
/-- The enumerator `mxCELL_CLASS`. -/
def mxCELL_CLASS : Int := 1
/-- The enumerator `mxSTRUCT_CLASS`. -/
def mxSTRUCT_CLASS : Int := 2
/-- The enumerator `mxLOGICAL_CLASS`. -/
def mxLOGICAL_CLASS : Int := 3
/-- The enumerator `mxCHAR_CLASS`. -/
def mxCHAR_CLASS : Int := 4
/-- The enumerator `mxVOID_CLASS`. -/
def mxVOID_CLASS : Int := 5
/-- The enumerator `mxDOUBLE_CLASS`. -/
def mxDOUBLE_CLASS : Int := 6
/-- The enumerator `mxSINGLE_CLASS`. -/
def mxSINGLE_CLASS : Int := 7
/-- The enumerator `mxINT8_CLASS`. -/
def mxINT8_CLASS : Int := 8
/-- The enumerator `mxUINT8_CLASS`. -/
def mxUINT8_CLASS : Int := 9
/-- The enumerator `mxINT16_CLASS`. -/
def mxINT16_CLASS : Int := 10
/-- The enumerator `mxUINT16_CLASS`. -/
def mxUINT16_CLASS : Int := 11
/-- The enumerator `mxINT32_CLASS`. -/
def mxINT32_CLASS : Int := 12
/-- The enumerator `mxUINT32_CLASS`. -/
def mxUINT32_CLASS : Int := 13
/-- The enumerator `mxINT64_CLASS`. -/
def mxINT64_CLASS : Int := 14
/-- The enumerator `mxUINT64_CLASS`. -/
def mxUINT64_CLASS : Int := 15
/-- The enumerator `mxFUNCTION_CLASS`. -/
def mxFUNCTION_CLASS : Int := 16

/-- Modelled from the spec: the host array descriptor behind `mxArray*` (MATLAB's array
type is not part of the repository). It exposes the element type code, the ordered
dimension sizes and the raw element bytes. -/
structure MxArray where
  /-- The result of `mxGetClassID`. -/
  classID : Int
  /-- The `mxGetNumberOfDimensions` sizes `mxGetDimensions` points to. -/
  dims : List Nat
  /-- The bytes `mxGetData` points to. -/
  data : List Nat
  deriving DecidableEq, Repr

/-- The result of `mxGetNumberOfElements`. -/
def mxGetNumberOfElements (pItem : MxArray) : Nat := pItem.dims.prod

/-- Modelled from the spec: the allocation operation `allocate(typeCode, dimensions)` of
the array descriptor, MATLAB's `mxCreateNumericArray(ndim, dims, classid, mxREAL)`. The
new array has the requested class and the first `ndim` sizes of `dims`, and its
elements are zero; `none` stands for the null pointer. -/
def mxCreateNumericArray (host : Host) (ndim : Nat) (dims : List Nat) (classid : Int) :
    Option MxArray :=
  let d := dims.take ndim
  some { classID := classid, dims := d,
         data := List.replicate (host.mxGetElementSize classid * d.prod) 0 }

/-! ## TypedBLOBHeaderBase -/

/-- The member function `TypedBLOBHeaderBase::init(clsid)`. -/
def TypedBLOBHeaderBase.init (host : Host) (m : Mem) (clsid : Int) : Mem :=
  let m := strcpy m offsetof_m_magic TBH_MAGIC
  let m := strcpy m offsetof_m_platform host.TBH_platform
  let m := storeInt host.bigEndian m offsetof_m_ver 2 (toInt16 TypedBLOBHeaderBase.members.sum)
  let m := storeInt host.bigEndian m offsetof_m_clsid 4 (toInt32 clsid)
  store m offsetof_m_endian (arrayPtr host.TBH_endian 0)

/-- The member function `validMagic()`. -/
def validMagic (m : Mem) : Bool :=
  decide (0 = strncmp (fieldPtr m offsetof_m_magic) (arrayPtr TBH_MAGIC) TBH_MAGIC_MAXLEN)

/-- The static `validClsid(mxClassID clsid)`. -/
def validClsid (clsid : Int) : Bool :=
  if clsid = mxLOGICAL_CLASS ∨ clsid = mxCHAR_CLASS ∨ clsid = mxDOUBLE_CLASS
      ∨ clsid = mxSINGLE_CLASS ∨ clsid = mxINT8_CLASS ∨ clsid = mxUINT8_CLASS
      ∨ clsid = mxINT16_CLASS ∨ clsid = mxUINT16_CLASS ∨ clsid = mxINT32_CLASS
      ∨ clsid = mxUINT32_CLASS ∨ clsid = mxINT64_CLASS ∨ clsid = mxUINT64_CLASS then
    true
  else
    false

/-- The value of the member `m_ver`. -/
def m_ver (host : Host) (m : Mem) : Int := loadInt host.bigEndian m offsetof_m_ver 2

/-- The value of the member `m_clsid`. -/
def m_clsid (host : Host) (m : Mem) : Int := loadInt host.bigEndian m offsetof_m_clsid 4

/-- The value of the member `m_endian`. -/
def m_endian (m : Mem) : Nat := m offsetof_m_endian

/-- The self-checking member function `validClsid()`. -/
def validClsidSelf (host : Host) (m : Mem) : Bool := validClsid (m_clsid host m)

/-- The member function `validPlatform()`. -/
def validPlatform (host : Host) (m : Mem) : Bool :=
  decide (arrayPtr host.TBH_endian 0 = m_endian m)
    && decide (0 = strncmp (arrayPtr host.TBH_platform) (fieldPtr m offsetof_m_platform)
                      TBH_PLATFORM_MAXLEN)

/-- The static `TypedBLOBHeaderBase::getDataSize(pItem)` for a non-null `pItem`. -/
def TypedBLOBHeaderBase.getDataSize (host : Host) (pItem : MxArray) : Nat :=
  let szElement := host.mxGetElementSize pItem.classID
  let cntElements := mxGetNumberOfElements pItem
  szElement * cntElements

/-! ## TypedBLOBHeaderCompressed -/

/-- The member function `setCompressor(strCompressorType)`. -/
def setCompressor (m : Mem) (strCompressorType : List Nat) : Mem :=
  strncpy m offsetof_m_compression strCompressorType 12

/-- The member function `TypedBLOBHeaderCompressed::init(clsid)`. -/
def TypedBLOBHeaderCompressed.init (host : Host) (m : Mem) (clsid : Int) : Mem :=
  let m := TypedBLOBHeaderBase.init host m clsid
  setCompressor m []

/-! ## TBHData -/

/-- The call `HeaderBaseType::init(clsid)` inside the template. -/
def HeaderBaseType.init (H : HeaderBaseType) (host : Host) (m : Mem) (clsid : Int) : Mem :=
  match H with
  | .TypedBLOBHeaderBase => TypedBLOBHeaderBase.init host m clsid
  | .TypedBLOBHeaderCompressed => TypedBLOBHeaderCompressed.init host m clsid

/-- The element `m_nDims[i]` as stored. -/
def m_nDims (host : Host) (H : HeaderBaseType) (m : Mem) (i : Nat) : Int :=
  loadInt host.bigEndian m (TBHData.offsetof_m_nDims_at H i) 4

/-- The member function `TBHData::init(clsid, nDims, pSize)`; `pSize i` is `pSize[i]`. -/
def TBHData.init (host : Host) (H : HeaderBaseType) (m : Mem) (clsid : Int) (nDims : Nat)
    (pSize : Nat → Nat) : Mem :=
  let m := H.init host m clsid
  let m := storeInt host.bigEndian m offsetof_m_ver 2 (toInt16 (TBHData.sizeof H))
  let m := storeInt host.bigEndian m (TBHData.offsetof_m_nDims_at H 0) 4 (toInt32 nDims)
  (List.range nDims).foldl
    (fun m i => storeInt host.bigEndian m (TBHData.offsetof_m_nDims_at H (i + 1)) 4
                  (toInt32 (pSize i)))
    m

/-- The member function `TBHData::init(pItem)` for a non-null `pItem`. -/
def TBHData.initItem (host : Host) (H : HeaderBaseType) (m : Mem) (pItem : MxArray) : Mem :=
  let clsid := pItem.classID
  let nDims := pItem.dims.length
  let dimensions := arrayPtr pItem.dims
  TBHData.init host H m clsid nDims dimensions

/-- The member function `TBHData::validVer()`. -/
def TBHData.validVer (host : Host) (H : HeaderBaseType) (m : Mem) : Bool :=
  decide (TBHData.sizeof H = toSizeT (m_ver host m))

/-- The member function `getData(nDims)`: the address `&m_nDims[nDims+1]`, with `this`
at address 0 of the memory region. The index `nDims+1` is computed in `mwSize` and
wraps, and so does the address. -/
def TBHData.getData (H : HeaderBaseType) (nDims : Nat) : Nat :=
  TBHData.addressof_m_nDims H 0 ((nDims + 1) % SIZE_T_RANGE)

/-- The member function `getData()` that reads the stored dimension count. -/
def TBHData.getDataSelf (host : Host) (H : HeaderBaseType) (m : Mem) : Nat :=
  TBHData.getData H (toSizeT (m_nDims host H m 0))

/-- The member function `dataOffset()` that reads the stored dimension count. -/
def TBHData.dataOffsetSelf (host : Host) (H : HeaderBaseType) (m : Mem) : Nat :=
  TBHData.dataOffset H (toSizeT (m_nDims host H m 0))

/-- The member function `createNumericArray(doCopyData)`. -/
def TBHData.createNumericArray (host : Host) (H : HeaderBaseType) (m : Mem)
    (doCopyData : Bool) : Option MxArray :=
  let nDims := toSizeT (m_nDims host H m 0)
  let clsid := m_clsid host m
  let dimensions := (List.range nDims).map (fun i => toSizeT (m_nDims host H m (i + 1)))
  match mxCreateNumericArray host nDims dimensions clsid with
  | none => none
  | some pItem =>
    if doCopyData then
      some { pItem with
        data := loadBytes m (TBHData.getDataSelf host H m)
                  (TypedBLOBHeaderBase.getDataSize host pItem) }
    else
      some pItem

/-- The member function `TBHData::getDataSize()`. The helper `utils_elbytes` is declared
in `utils.hpp`, outside the files at hand, and is taken as a parameter: it maps a class
id to a number of bytes. -/
def TBHData.getDataSize (utils_elbytes : Int → Nat) (host : Host) (m : Mem) : Nat :=
  utils_elbytes (m_clsid host m)

/-- The libc `strlen` of a source array: the number of characters before the first NUL. -/
def strlen (s : List Nat) : Nat := (s.takeWhile (fun c => c ≠ 0)).length

/-! ## The legacy header of namespace `old_version` -/

/-- The least multiple of `a` that is not below `n`. -/
def alignUp (a n : Nat) : Nat := (n + a - 1) / a * a

/-- Offset of the `k`-th member of a structure laid out with natural alignment; a member
is given by its size and its alignment and is placed at the next address that is a
multiple of its alignment. `cur` is the first free offset. -/
def alignedOffsetFrom (cur : Nat) : List (Nat × Nat) → Nat → Nat
  | [], _ => cur
  | (_, al) :: _, 0 => alignUp al cur
  | (sz, al) :: ms, k + 1 => alignedOffsetFrom (alignUp al cur + sz) ms k

/-- Offset of the `k`-th member of a structure laid out with natural alignment. -/
def alignedOffset (members : List (Nat × Nat)) (k : Nat) : Nat :=
  alignedOffsetFrom 0 members k

/-- The array `old_version::TBH_MAGIC[] = "mkSQLite.tbh"`: twelve characters and the NUL
that terminates the literal. -/
def old_version.TBH_MAGIC : List Nat := [109, 107, 83, 81, 76, 105, 116, 101, 46, 116, 98, 104, 0]

/-- Size and alignment of the members `magic`, `ver`, `clsid`, `platform`, `endian`,
`sizeDims` of `old_version::TypedBLOBHeader`, which is declared without packing:
`char` arrays are aligned to 1, `int16_t` to 2 and `int32_t` to 4. -/
def old_version.TypedBLOBHeader.members : List (Nat × Nat) :=
  [(old_version.TBH_MAGIC.length, 1), (2, 2), (4, 4), (11, 1), (1, 1), (4, 4)]

/-- Offset of `ver` in the legacy header. -/
def old_version.offsetof_ver : Nat := alignedOffset old_version.TypedBLOBHeader.members 1
/-- Offset of `clsid` in the legacy header. -/
def old_version.offsetof_clsid : Nat := alignedOffset old_version.TypedBLOBHeader.members 2
/-- Offset of `platform` in the legacy header. -/
def old_version.offsetof_platform : Nat := alignedOffset old_version.TypedBLOBHeader.members 3
/-- Offset of `endian` in the legacy header. -/
def old_version.offsetof_endian : Nat := alignedOffset old_version.TypedBLOBHeader.members 4
/-- Offset of `sizeDims` in the legacy header. -/
def old_version.offsetof_sizeDims : Nat := alignedOffset old_version.TypedBLOBHeader.members 5

/-- The preprocessor definition `TBH_DATA_OFFSET(nDims)`: the address of `sizeDims[nDims+1]`
in a legacy header placed at address 0. -/
def old_version.TBH_DATA_OFFSET (nDims : Nat) : Nat :=
  0 + old_version.offsetof_sizeDims + 4 * (nDims + 1)

/-- The function `old_version::check_compatibility()`; both structures are placed at
address 1024 and the addresses of their members are compared. -/
def old_version.check_compatibility : Int :=
  let tbh1 : Nat := 1024
  let old_struct : Nat := 1024
  if tbh1 + offsetof_m_ver = old_struct + old_version.offsetof_ver
      ∧ tbh1 + offsetof_m_clsid = old_struct + old_version.offsetof_clsid
      ∧ tbh1 + offsetof_m_platform + 0 = old_struct + old_version.offsetof_platform + 0
      ∧ tbh1 + offsetof_m_endian = old_struct + old_version.offsetof_endian
      ∧ tbh1 + TBHData.offsetof_m_nDims .TypedBLOBHeaderBase
          = old_struct + old_version.offsetof_sizeDims
      ∧ old_version.TBH_DATA_OFFSET 2 = TBHData.dataOffset .TypedBLOBHeaderBase 2 then
    1
  else
    0

/-! ## Concrete inputs -/

/-- A little-endian 64-bit Linux host: `computer` reports `GLNXA64` and `L`. -/
def hostGLNXA64 : Host where
  TBH_platform := [71, 76, 78, 88, 65, 54, 52, 0, 0, 0, 0]
  TBH_endian := [76, 0]
  bigEndian := false
  mxGetElementSize := fun clsid =>
    if clsid = mxDOUBLE_CLASS ∨ clsid = mxINT64_CLASS ∨ clsid = mxUINT64_CLASS then 8
    else if clsid = mxSINGLE_CLASS ∨ clsid = mxINT32_CLASS ∨ clsid = mxUINT32_CLASS then 4
    else if clsid = mxCHAR_CLASS ∨ clsid = mxINT16_CLASS ∨ clsid = mxUINT16_CLASS then 2
    else if clsid = mxLOGICAL_CLASS ∨ clsid = mxINT8_CLASS ∨ clsid = mxUINT8_CLASS then 1
    else 0

/-- The platform string `PCWIN64`, NUL-terminated. -/
def platformPCWIN64 : List Nat := [80, 67, 87, 73, 78, 54, 52, 0]

/-- A freshly zeroed memory region. -/
def zeroMem : Mem := fun _ => 0

/-- A memory region filled with the byte `0xFF`. -/
def onesMem : Mem := fun _ => 255

/-- A 2x3 `double` array whose 48 element bytes are `1, 2, ..., 48`. -/
def array2x3 : MxArray where
  classID := mxDOUBLE_CLASS
  dims := [2, 3]
  data := (List.range 48).map (fun i => i + 1)

/-- An empty `double` array of shape `(2^32 + 5) x 0`. -/
def arrayWide : MxArray where
  classID := mxDOUBLE_CLASS
  dims := [4294967301, 0]
  data := []

/-- The container for `array2x3` over the base header, built in `onesMem`. -/
def blob2x3 : Mem :=
  TBHData.initItem hostGLNXA64 .TypedBLOBHeaderBase onesMem array2x3

/-- A region whose magic member equals `TBH_MAGIC` except in its last byte. -/
def magicLastByteChanged : Mem := store (storeBytes zeroMem offsetof_m_magic TBH_MAGIC) 13 1

/-- The compressor name `blosclz`, NUL-terminated. -/
def compressorBlosclz : List Nat := [98, 108, 111, 115, 99, 108, 122, 0]

/-- A compressor name of twelve characters, `blosclz_fast`, NUL-terminated. -/
def compressorTwelve : List Nat :=
  [98, 108, 111, 115, 99, 108, 122, 95, 102, 97, 115, 116, 0]

/-- The container for a 1x1 `double` array over the base header, built in `onesMem`. -/
def blob1x1 : Mem :=
  TBHData.init hostGLNXA64 .TypedBLOBHeaderBase onesMem mxDOUBLE_CLASS 2 (arrayPtr [1, 1])

/-! ## Facts about the layout -/

theorem offsetof_m_magic_eq : offsetof_m_magic = 0 := rfl
theorem offsetof_m_ver_eq : offsetof_m_ver = 14 := rfl
theorem offsetof_m_clsid_eq : offsetof_m_clsid = 16 := rfl
theorem offsetof_m_platform_eq : offsetof_m_platform = 20 := rfl
theorem offsetof_m_endian_eq : offsetof_m_endian = 31 := rfl
theorem offsetof_m_compression_eq : offsetof_m_compression = 32 := rfl
theorem sizeof_base_members : TypedBLOBHeaderBase.members.sum = 32 := rfl

theorem sizeof_TypedBLOBHeaderBase :
    HeaderBaseType.sizeof .TypedBLOBHeaderBase = 32 := rfl

theorem sizeof_TypedBLOBHeaderCompressed :
    HeaderBaseType.sizeof .TypedBLOBHeaderCompressed = 44 := rfl

theorem sizeof_ge (H : HeaderBaseType) : 32 ≤ H.sizeof := by
  cases H
  · rw [sizeof_TypedBLOBHeaderBase]
  · rw [sizeof_TypedBLOBHeaderCompressed]; omega

theorem sizeof_le (H : HeaderBaseType) : H.sizeof ≤ 44 := by
  cases H
  · rw [sizeof_TypedBLOBHeaderBase]; omega
  · rw [sizeof_TypedBLOBHeaderCompressed]

theorem offsetof_m_nDims_at_eq (H : HeaderBaseType) (i : Nat) :
    TBHData.offsetof_m_nDims_at H i = H.sizeof + 4 * i := rfl

theorem dataOffset_eq_mod (H : HeaderBaseType) (nDims : Nat) :
    TBHData.dataOffset H nDims = (H.sizeof + 4 * (nDims + 1)) % SIZE_T_RANGE := by
  have h1 := sizeof_ge H
  have h2 := sizeof_le H
  unfold TBHData.dataOffset TBHData.addressof_m_nDims TBHData.offsetof_m_nDims SIZE_T_RANGE
  simp only
  omega

theorem dataOffset_wraps :
    TBHData.dataOffset .TypedBLOBHeaderBase 4611686018427387904 = 36
    ∧ TBHData.dataOffset .TypedBLOBHeaderBase 18446744073709551615 = 32 := by
  decide

theorem getData_of_lt (H : HeaderBaseType) (nDims : Nat) (h : nDims < 2147483648) :
    TBHData.getData H nDims = TBHData.offsetof_m_nDims_at H (nDims + 1) := by
  have h2 := sizeof_le H
  unfold TBHData.getData TBHData.addressof_m_nDims TBHData.offsetof_m_nDims_at
    TBHData.offsetof_m_nDims SIZE_T_RANGE
  omega

/-! ## Facts about memory -/

theorem store_eq (m : Mem) (a b : Nat) : store m a b a = b := by
  simp [store]

theorem store_ne (m : Mem) (a b x : Nat) (h : x ≠ a) : store m a b x = m x := by
  simp [store, h]

theorem storeBytes_outside (bs : List Nat) (m : Mem) (a x : Nat)
    (h : x < a ∨ a + bs.length ≤ x) : storeBytes m a bs x = m x := by
  induction bs generalizing m a with
  | nil => rfl
  | cons b bs ih =>
    simp only [storeBytes, List.length_cons] at *
    rw [ih _ _ (by omega), store_ne _ _ _ _ (by omega)]

theorem storeBytes_inside (bs : List Nat) (m : Mem) (a i : Nat) (h : i < bs.length) :
    storeBytes m a bs (a + i) = bs.getD i 0 := by
  induction bs generalizing m a i with
  | nil => simp at h
  | cons b bs ih =>
    simp only [storeBytes]
    cases i with
    | zero =>
      rw [storeBytes_outside _ _ _ _ (by omega)]
      simp [store]
    | succ j =>
      have hj : j < bs.length := by simpa using h
      have := ih (store m a b) (a + 1) j hj
      rw [show a + (j + 1) = a + 1 + j by omega, this]
      simp

theorem loadBytes_length (m : Mem) (a n : Nat) : (loadBytes m a n).length = n := by
  induction n generalizing a with
  | zero => rfl
  | succ n ih => simp [loadBytes, ih]

theorem loadBytes_congr (m m' : Mem) (a n : Nat)
    (h : ∀ x, a ≤ x → x < a + n → m' x = m x) : loadBytes m' a n = loadBytes m a n := by
  induction n generalizing a with
  | zero => rfl
  | succ n ih =>
    simp only [loadBytes]
    rw [h a (by omega) (by omega), ih (a + 1) (fun x h1 h2 => h x (by omega) (by omega))]

theorem loadBytes_storeBytes (bs : List Nat) (m : Mem) (a : Nat) :
    loadBytes (storeBytes m a bs) a bs.length = bs := by
  induction bs generalizing m a with
  | nil => rfl
  | cons b bs ih =>
    simp only [List.length_cons, loadBytes, storeBytes]
    rw [ih, storeBytes_outside _ _ _ _ (by omega), store_eq]

theorem leBytes_length (n u : Nat) : (leBytes n u).length = n := by
  induction n generalizing u with
  | zero => rfl
  | succ n ih => simp [leBytes, ih]

theorem intBytes_length (be : Bool) (n : Nat) (v : Int) : (intBytes be n v).length = n := by
  unfold intBytes
  cases be <;> simp [leBytes_length]

theorem leValue_leBytes (n u : Nat) : leValue (leBytes n u) = u % 256 ^ n := by
  induction n generalizing u with
  | zero => simp [leBytes, leValue, Nat.mod_one]
  | succ n ih =>
    simp only [leBytes, leValue, ih]
    rw [pow_succ, Nat.mul_comm (256 ^ n) 256, Nat.mod_mul]

theorem intValue_intBytes_two (be : Bool) (v : Int) :
    intValue be 2 (intBytes be 2 v) = toInt16 v := by
  have h : leValue (leBytes 2 (v % (256 ^ 2 : Nat)).toNat) = (v % (256 ^ 2 : Nat)).toNat % 256 ^ 2 :=
    leValue_leBytes _ _
  unfold intValue intBytes toInt16
  cases be <;> simp only [List.reverse_reverse, Bool.false_eq_true, if_false, if_true] <;>
    rw [h] <;> norm_num <;> split <;> omega

theorem intValue_intBytes_four (be : Bool) (v : Int) :
    intValue be 4 (intBytes be 4 v) = toInt32 v := by
  have h : leValue (leBytes 4 (v % (256 ^ 4 : Nat)).toNat) = (v % (256 ^ 4 : Nat)).toNat % 256 ^ 4 :=
    leValue_leBytes _ _
  unfold intValue intBytes toInt32
  cases be <;> simp only [List.reverse_reverse, Bool.false_eq_true, if_false, if_true] <;>
    rw [h] <;> norm_num <;> split <;> omega

theorem toInt32_toInt32 (v : Int) : toInt32 (toInt32 v) = toInt32 v := by
  unfold toInt32
  omega

theorem toInt16_toInt16 (v : Int) : toInt16 (toInt16 v) = toInt16 v := by
  unfold toInt16
  omega

theorem toInt32_of_lt (n : Nat) (h : n < 2147483648) : toInt32 (n : Int) = n := by
  unfold toInt32
  omega

theorem toSizeT_natCast (n : Nat) (h : n < 18446744073709551616) : toSizeT (n : Int) = n := by
  unfold toSizeT
  omega

theorem loadInt_storeInt (be : Bool) (m : Mem) (a n : Nat) (v : Int) :
    loadInt be (storeInt be m a n v) a n = intValue be n (intBytes be n v) := by
  unfold loadInt storeInt
  have := loadBytes_storeBytes (intBytes be n v) m a
  rw [intBytes_length] at this
  rw [this]

theorem loadInt_congr (be : Bool) (m m' : Mem) (a n : Nat)
    (h : ∀ x, a ≤ x → x < a + n → m' x = m x) : loadInt be m' a n = loadInt be m a n := by
  unfold loadInt
  rw [loadBytes_congr m m' a n h]

theorem storeInt_outside (be : Bool) (m : Mem) (a n : Nat) (v : Int) (x : Nat)
    (h : x < a ∨ a + n ≤ x) : storeInt be m a n v x = m x := by
  unfold storeInt
  exact storeBytes_outside _ _ _ _ (by rw [intBytes_length]; exact h)

/-! ## Facts about the string functions -/

theorem strcpy_eq_storeBytes (s : List Nat) (m : Mem) (dst : Nat) :
    strcpy m dst s = storeBytes m dst (s.takeWhile (fun c => c ≠ 0) ++ [0]) := by
  induction s generalizing m dst with
  | nil => rfl
  | cons c cs ih =>
    by_cases hc : c = 0
    · simp [strcpy, hc, storeBytes]
    · simp [strcpy, hc, storeBytes, ih]

theorem strcpy_below (s : List Nat) (m : Mem) (dst x : Nat) (h : x < dst) :
    strcpy m dst s x = m x := by
  rw [strcpy_eq_storeBytes]
  exact storeBytes_outside _ _ _ _ (Or.inl h)

theorem strcpy_inside (s : List Nat) (m : Mem) (dst j : Nat)
    (h : ∀ i, i < j → arrayPtr s i ≠ 0) : strcpy m dst s (dst + j) = arrayPtr s j := by
  induction s generalizing m dst j with
  | nil =>
    cases j with
    | zero => simp [strcpy, store, arrayPtr]
    | succ j => exact absurd (by simp [arrayPtr]) (h 0 (by omega))
  | cons c cs ih =>
    by_cases hc : c = 0
    · cases j with
      | zero => simp [strcpy, hc, store, arrayPtr]
      | succ j => exact absurd (by simp [arrayPtr, hc]) (h 0 (by omega))
    · cases j with
      | zero =>
        simp only [strcpy, hc, if_false, Nat.add_zero]
        rw [strcpy_below _ _ _ _ (by omega)]
        simp [store, arrayPtr]
      | succ j =>
        simp only [strcpy, hc, if_false]
        have hj : ∀ i, i < j → arrayPtr cs i ≠ 0 := by
          intro i hi
          have := h (i + 1) (by omega)
          simpa [arrayPtr] using this
        have := ih (store m dst c) (dst + 1) j hj
        rw [show dst + (j + 1) = dst + 1 + j by omega, this]
        simp [arrayPtr]

theorem strncpy_outside (s : List Nat) (n : Nat) (m : Mem) (dst x : Nat)
    (h : x < dst ∨ dst + n ≤ x) : strncpy m dst s n x = m x := by
  induction n generalizing m dst s with
  | zero => cases s <;> rfl
  | succ n ih =>
    cases s with
    | nil =>
      simp only [strncpy]
      rw [ih _ _ _ (by omega), store_ne _ _ _ _ (by omega)]
    | cons c cs =>
      simp only [strncpy]
      split
      · rw [ih _ _ _ (by omega), store_ne _ _ _ _ (by omega)]
      · rw [ih _ _ _ (by omega), store_ne _ _ _ _ (by omega)]

theorem strncmpFrom_eq_zero_iff (s1 s2 : Nat → Nat) (n i : Nat) :
    strncmpFrom s1 s2 i n = 0 ↔
      ((List.range' i n).map s1).takeWhile (fun c => c ≠ 0)
        = ((List.range' i n).map s2).takeWhile (fun c => c ≠ 0) := by
  induction n generalizing i with
  | zero => simp [strncmpFrom]
  | succ n ih =>
    simp only [strncmpFrom, List.range'_succ, List.map_cons, List.takeWhile_cons]
    by_cases h : s1 i = s2 i
    · by_cases hz : s1 i = 0
      · have hz2 : s2 i = 0 := by rw [← h]; exact hz
        simp [hz, hz2]
      · have hz2 : ¬ s2 i = 0 := by rw [← h]; exact hz
        simp only [h, ne_eq, not_true_eq_false, if_false, hz2, not_false_eq_true,
          decide_True, if_true, List.cons.injEq, true_and]
        exact ih (i + 1)
    · have hne : ((s1 i : Int) - (s2 i : Int) = 0) ↔ False := by
        constructor
        · intro h0; exact h (by omega)
        · exact False.elim
      simp only [ne_eq, h, not_false_eq_true, if_true, hne, false_iff]
      by_cases hz1 : s1 i = 0
      · have hz2 : ¬ s2 i = 0 := fun h2 => h (by rw [hz1, h2])
        simp [hz1, hz2]
      · by_cases hz2 : s2 i = 0
        · simp [hz1, hz2]
        · simp [hz1, hz2, h]

theorem strncmp_eq_zero_iff (s1 s2 : Nat → Nat) (n : Nat) :
    strncmp s1 s2 n = 0 ↔ cstring s1 n = cstring s2 n := by
  unfold strncmp cstring
  rw [strncmpFrom_eq_zero_iff, List.range_eq_range']

theorem strncmpFrom_eq_zero_of_nul (s1 s2 : Nat → Nat) (k : Nat) (hk : s2 k = 0)
    (hnz : ∀ j, j < k → s2 j ≠ 0) (n i : Nat) (hi : i ≤ k) (hn : k < i + n) :
    strncmpFrom s1 s2 i n = 0 ↔ ∀ j, i ≤ j → j ≤ k → s1 j = s2 j := by
  induction n generalizing i with
  | zero => omega
  | succ n ih =>
    simp only [strncmpFrom]
    by_cases h : s1 i = s2 i
    · by_cases hz : s1 i = 0
      · have hik : i = k := by
          rcases Nat.lt_or_ge i k with hlt | hge
          · exact absurd (h ▸ hz) (hnz i hlt)
          · omega
        simp only [h, ne_eq, not_true_eq_false, if_false, h ▸ hz, if_true, true_iff]
        intro j h1 h2
        have : j = i := by omega
        rw [this, h]
      · have hik : i < k := by
          rcases Nat.lt_or_ge i k with hlt | hge
          · exact hlt
          · have : i = k := by omega
            exact absurd (by rw [h, this, hk]) hz
        simp only [h, ne_eq, not_true_eq_false, if_false, h ▸ hz]
        rw [ih (i + 1) (by omega) (by omega)]
        constructor
        · intro hall j h1 h2
          rcases Nat.eq_or_lt_of_le h1 with he | hl
          · rw [← he, h]
          · exact hall j (by omega) h2
        · intro hall j h1 h2
          exact hall j (by omega) h2
    · simp only [ne_eq, h, not_false_eq_true, if_true]
      constructor
      · intro h0; exact absurd (by omega) h
      · intro hall; exact absurd (hall i (Nat.le_refl i) hi) h

theorem cstring_congr_from (p q : Nat → Nat) (k : Nat) (hk : p k = 0) (n i : Nat)
    (hi : i ≤ k) (hn : k < i + n) (h : ∀ j, i ≤ j → j ≤ k → p j = q j) :
    ((List.range' i n).map p).takeWhile (fun c => c ≠ 0)
      = ((List.range' i n).map q).takeWhile (fun c => c ≠ 0) := by
  induction n generalizing i with
  | zero => omega
  | succ n ih =>
    simp only [List.range'_succ, List.map_cons, List.takeWhile_cons]
    rw [← h i (Nat.le_refl i) hi]
    by_cases hz : p i = 0
    · simp [hz]
    · have hik : i < k := by
        rcases Nat.lt_or_ge i k with hlt | hge
        · exact hlt
        · have : i = k := by omega
          exact absurd (by rw [this, hk]) hz
      simp only [ne_eq, hz, not_false_eq_true, decide_True, if_true, List.cons.injEq, true_and]
      exact ih (i + 1) (by omega) (by omega) (fun j h1 h2 => h j (by omega) h2)

theorem cstring_congr (p q : Nat → Nat) (n k : Nat) (hkn : k < n) (hk : p k = 0)
    (h : ∀ j, j ≤ k → p j = q j) : cstring p n = cstring q n := by
  unfold cstring
  rw [List.range_eq_range']
  exact cstring_congr_from p q k hk n 0 (Nat.zero_le k) (by omega) (fun j _ h2 => h j h2)

/-! ## Facts about the header after `init` -/

theorem TBH_MAGIC_nonzero (j : Nat) (h : j < 12) : arrayPtr TBH_MAGIC j ≠ 0 := by
  interval_cases j <;> decide

theorem TBH_MAGIC_nul : arrayPtr TBH_MAGIC 12 = 0 := rfl

theorem base_init_magic (host : Host) (m : Mem) (clsid : Int) (j : Nat) (h : j ≤ 12) :
    TypedBLOBHeaderBase.init host m clsid j = arrayPtr TBH_MAGIC j := by
  unfold TypedBLOBHeaderBase.init
  simp only [offsetof_m_endian_eq, offsetof_m_clsid_eq, offsetof_m_ver_eq,
    offsetof_m_platform_eq, offsetof_m_magic_eq]
  rw [store_ne _ _ _ _ (by omega), storeInt_outside _ _ _ _ _ _ (by omega),
    storeInt_outside _ _ _ _ _ _ (by omega), strcpy_below _ _ _ _ (by omega)]
  have := strcpy_inside TBH_MAGIC m 0 j (fun i hi => TBH_MAGIC_nonzero i (by omega))
  simpa using this

theorem base_init_platform (host : Host) (m : Mem) (clsid : Int) (j : Nat) (h : j ≤ 10)
    (hnz : ∀ i, i < j → arrayPtr host.TBH_platform i ≠ 0) :
    TypedBLOBHeaderBase.init host m clsid (offsetof_m_platform + j)
      = arrayPtr host.TBH_platform j := by
  unfold TypedBLOBHeaderBase.init
  simp only [offsetof_m_endian_eq, offsetof_m_clsid_eq, offsetof_m_ver_eq,
    offsetof_m_platform_eq, offsetof_m_magic_eq]
  rw [store_ne _ _ _ _ (by omega), storeInt_outside _ _ _ _ _ _ (by omega),
    storeInt_outside _ _ _ _ _ _ (by omega)]
  exact strcpy_inside _ _ 20 j hnz

theorem base_init_endian (host : Host) (m : Mem) (clsid : Int) :
    m_endian (TypedBLOBHeaderBase.init host m clsid) = arrayPtr host.TBH_endian 0 := by
  unfold TypedBLOBHeaderBase.init m_endian
  exact store_eq _ _ _

theorem base_init_clsid (host : Host) (m : Mem) (clsid : Int) :
    m_clsid host (TypedBLOBHeaderBase.init host m clsid) = toInt32 clsid := by
  unfold TypedBLOBHeaderBase.init m_clsid
  simp only [offsetof_m_endian_eq, offsetof_m_clsid_eq]
  rw [loadInt_congr _ _ _ _ _ (fun x h1 h2 => store_ne _ _ _ _ (by omega)),
    loadInt_storeInt, intValue_intBytes_four, toInt32_toInt32]

theorem base_init_ver (host : Host) (m : Mem) (clsid : Int) :
    m_ver host (TypedBLOBHeaderBase.init host m clsid) = 32 := by
  unfold TypedBLOBHeaderBase.init m_ver
  simp only [offsetof_m_endian_eq, offsetof_m_clsid_eq, offsetof_m_ver_eq]
  rw [loadInt_congr _ _ _ _ _ (fun x h1 h2 => by
      rw [store_ne _ _ _ _ (by omega), storeInt_outside _ _ _ _ _ _ (by omega)]),
    loadInt_storeInt, intValue_intBytes_two]
  rfl

theorem headerInit_low (H : HeaderBaseType) (host : Host) (m : Mem) (clsid : Int) (x : Nat)
    (h : x < 32) : H.init host m clsid x = TypedBLOBHeaderBase.init host m clsid x := by
  cases H with
  | TypedBLOBHeaderBase => rfl
  | TypedBLOBHeaderCompressed =>
    simp only [HeaderBaseType.init, TypedBLOBHeaderCompressed.init, setCompressor,
      offsetof_m_compression_eq]
    exact strncpy_outside _ _ _ _ _ (Or.inl h)

theorem compressed_init_low (host : Host) (m : Mem) (clsid : Int) (x : Nat) (h : x < 32) :
    TypedBLOBHeaderCompressed.init host m clsid x
      = TypedBLOBHeaderBase.init host m clsid x :=
  headerInit_low .TypedBLOBHeaderCompressed host m clsid x h

theorem m_clsid_congr (host : Host) (m m' : Mem) (h : ∀ x, 16 ≤ x → x < 20 → m' x = m x) :
    m_clsid host m' = m_clsid host m := by
  unfold m_clsid
  apply loadInt_congr
  intro x h1 h2
  rw [offsetof_m_clsid_eq] at h1 h2
  exact h x h1 (by omega)

theorem initDims_outside (be : Bool) (H : HeaderBaseType) (pSize : Nat → Nat) (k : Nat)
    (m : Mem) (x : Nat)
    (h : x < TBHData.offsetof_m_nDims_at H 1 ∨ TBHData.offsetof_m_nDims_at H (k + 1) ≤ x) :
    (List.range k).foldl
      (fun m i => storeInt be m (TBHData.offsetof_m_nDims_at H (i + 1)) 4 (toInt32 (pSize i)))
      m x = m x := by
  induction k with
  | zero => rfl
  | succ k ih =>
    rw [List.range_succ, List.foldl_append]
    simp only [List.foldl_cons, List.foldl_nil]
    simp only [offsetof_m_nDims_at_eq] at *
    rw [storeInt_outside _ _ _ _ _ _ (by omega), ih (by omega)]

theorem initDims_loadInt (be : Bool) (H : HeaderBaseType) (pSize : Nat → Nat) (k : Nat)
    (m : Mem) (i : Nat) (h : i < k) :
    loadInt be
      ((List.range k).foldl
        (fun m i => storeInt be m (TBHData.offsetof_m_nDims_at H (i + 1)) 4 (toInt32 (pSize i)))
        m)
      (TBHData.offsetof_m_nDims_at H (i + 1)) 4 = toInt32 (pSize i) := by
  induction k with
  | zero => omega
  | succ k ih =>
    rw [List.range_succ, List.foldl_append]
    simp only [List.foldl_cons, List.foldl_nil]
    rcases Nat.eq_or_lt_of_le (Nat.le_of_lt_succ h) with he | hl
    · subst he
      rw [loadInt_storeInt, intValue_intBytes_four, toInt32_toInt32]
    · rw [loadInt_congr _ _ _ _ _ (fun x h1 h2 => storeInt_outside _ _ _ _ _ _ (by
        simp only [offsetof_m_nDims_at_eq] at *; omega))]
      exact ih hl

theorem tbhdata_init_low (host : Host) (H : HeaderBaseType) (m : Mem) (clsid : Int)
    (nDims : Nat) (pSize : Nat → Nat) (x : Nat) (h : x < 32) (h14 : x ≠ 14) (h15 : x ≠ 15) :
    TBHData.init host H m clsid nDims pSize x = TypedBLOBHeaderBase.init host m clsid x := by
  unfold TBHData.init
  have hs := sizeof_ge H
  rw [initDims_outside _ _ _ _ _ _ (Or.inl (by rw [offsetof_m_nDims_at_eq]; omega)),
    storeInt_outside _ _ _ _ _ _ (Or.inl (by rw [offsetof_m_nDims_at_eq]; omega)),
    storeInt_outside _ _ _ _ _ _ (by rw [offsetof_m_ver_eq]; omega),
    headerInit_low _ _ _ _ _ h]

theorem tbhdata_init_ver (host : Host) (H : HeaderBaseType) (m : Mem) (clsid : Int)
    (nDims : Nat) (pSize : Nat → Nat) :
    m_ver host (TBHData.init host H m clsid nDims pSize) = toInt16 (TBHData.sizeof H) := by
  unfold TBHData.init m_ver
  have hs := sizeof_ge H
  rw [loadInt_congr _ _ _ _ _ (fun x h1 h2 => by
      rw [initDims_outside _ _ _ _ _ _ (Or.inl (by
          rw [offsetof_m_nDims_at_eq]; rw [offsetof_m_ver_eq] at h2; omega)),
        storeInt_outside _ _ _ _ _ _ (Or.inl (by
          rw [offsetof_m_nDims_at_eq]; rw [offsetof_m_ver_eq] at h2; omega))]),
    loadInt_storeInt, intValue_intBytes_two, toInt16_toInt16]

theorem validMagic_iff (m : Mem) :
    validMagic m = true ↔ ∀ j, j ≤ 12 → m j = arrayPtr TBH_MAGIC j := by
  unfold validMagic strncmp
  rw [decide_eq_true_iff, eq_comm,
    strncmpFrom_eq_zero_of_nul _ _ 12 TBH_MAGIC_nul TBH_MAGIC_nonzero TBH_MAGIC_MAXLEN 0
      (by omega) (by decide)]
  simp [fieldPtr, offsetof_m_magic_eq]

theorem validMagic_congr (m m' : Mem) (h : ∀ j, j ≤ 12 → m' j = m j) :
    validMagic m' = validMagic m := by
  rw [Bool.eq_iff_iff, validMagic_iff, validMagic_iff]
  constructor
  · intro h1 j hj; rw [← h j hj]; exact h1 j hj
  · intro h1 j hj; rw [h j hj]; exact h1 j hj

theorem validVer_of_ver (host : Host) (H : HeaderBaseType) (m : Mem)
    (h : m_ver host m = toInt16 (TBHData.sizeof H)) : TBHData.validVer host H m = true := by
  unfold TBHData.validVer
  rw [h]
  cases H <;> decide

/-! ## The data offset -/

/-- C2: for every dimension count `N` and both header types (base, 32 bytes; compressed,
44 bytes) the static `dataOffset(N)` is `sizeof(H) + 4 + 4*N`: the two agree as `size_t`
values for every `N`, and as numbers whenever `sizeof(H) + 4 + 4*N` is a `size_t`
value, that is whenever the payload offset exists in the address space. In particular
`dataOffset(0) = sizeof(H) + 4`, and for a 2x3 double array over the base header
`dataOffset(2) + 6*8 = sizeof(HeaderBase) + 4 + 4*2 + 6*8`. -/
theorem dataOffset_eq (H : HeaderBaseType) (N : Nat) :
    HeaderBaseType.sizeof .TypedBLOBHeaderBase = 32
    ∧ HeaderBaseType.sizeof .TypedBLOBHeaderCompressed = 44
    ∧ TBHData.dataOffset H N = (H.sizeof + 4 + 4 * N) % SIZE_T_RANGE
    ∧ (H.sizeof + 4 + 4 * N < SIZE_T_RANGE → TBHData.dataOffset H N = H.sizeof + 4 + 4 * N)
    ∧ TBHData.dataOffset H 0 = H.sizeof + 4
    ∧ TBHData.dataOffset .TypedBLOBHeaderBase 2 + 6 * 8
        = HeaderBaseType.sizeof .TypedBLOBHeaderBase + 4 + 4 * 2 + 6 * 8 := by
  have h2 := sizeof_le H
  refine ⟨rfl, rfl, ?_, ?_, ?_, by decide⟩
  · rw [dataOffset_eq_mod]
    congr 1
    omega
  · intro h
    rw [dataOffset_eq_mod]
    unfold SIZE_T_RANGE at *
    omega
  · rw [dataOffset_eq_mod]
    unfold SIZE_T_RANGE
    omega

/-- Witness for C2: two dimensions over the compressed header. -/
theorem dataOffset_eq_witness :
    TBHData.dataOffset .TypedBLOBHeaderCompressed 2
      = HeaderBaseType.sizeof .TypedBLOBHeaderCompressed + 4 + 4 * 2 :=
  (dataOffset_eq .TypedBLOBHeaderCompressed 2).2.2.2.1 (by decide)

/-- C3 (as stated, refuted): with one dimension over the base header `dataOffset(1)` is
40, not `sizeof(H) + 4 + 4*(1 + 1) = 44`. -/
theorem dataOffset_ne_claimed :
    TBHData.dataOffset .TypedBLOBHeaderBase 1 = 40
    ∧ TBHData.dataOffset .TypedBLOBHeaderBase 1
        ≠ HeaderBaseType.sizeof .TypedBLOBHeaderBase + 4 + 4 * (1 + 1) := by
  decide

/-- C3 (amended): for every dimension count `k` and both header types `dataOffset(k)` is
`sizeof(H) + 4*(k + 1)`, four bytes less than `sizeof(H) + 4 + 4*(k + 1)`: the count
field and `k` further 4-byte slots. The two agree as `size_t` values for every `k`, and
as numbers whenever `sizeof(H) + 4*(k + 1)` is a `size_t` value. For `k` in 0, 1, 3, 8
this is 36, 40, 48, 68 over the base header and 48, 52, 60, 80 over the compressed
header. -/
theorem dataOffset_slots (H : HeaderBaseType) (k : Nat) :
    TBHData.dataOffset H k = (H.sizeof + 4 * (k + 1)) % SIZE_T_RANGE
    ∧ (H.sizeof + 4 * (k + 1) < SIZE_T_RANGE →
        TBHData.dataOffset H k = H.sizeof + 4 * (k + 1)
        ∧ TBHData.dataOffset H k + 4 = H.sizeof + 4 + 4 * (k + 1))
    ∧ [0, 1, 3, 8].map (TBHData.dataOffset .TypedBLOBHeaderBase) = [36, 40, 48, 68]
    ∧ [0, 1, 3, 8].map (TBHData.dataOffset .TypedBLOBHeaderCompressed) = [48, 52, 60, 80] := by
  refine ⟨dataOffset_eq_mod H k, ?_, by decide, by decide⟩
  intro h
  rw [dataOffset_eq_mod, Nat.mod_eq_of_lt h]
  exact ⟨rfl, by omega⟩

/-- Witness for the amended C3: eight dimensions over the base header. -/
theorem dataOffset_slots_witness :
    TBHData.dataOffset .TypedBLOBHeaderBase 8
        = HeaderBaseType.sizeof .TypedBLOBHeaderBase + 4 * (8 + 1)
    ∧ TBHData.dataOffset .TypedBLOBHeaderBase 8 + 4
        = HeaderBaseType.sizeof .TypedBLOBHeaderBase + 4 + 4 * (8 + 1) :=
  (dataOffset_slots .TypedBLOBHeaderBase 8).2.1 (by decide)

/-! ## The version member -/

/-- C4 (as stated, refuted): after `init` for a 2x3 double array over the base header the
version member is 36, not `sizeof(HeaderBase) + 4 + 4*2 = 44`. -/
theorem init_ver_ne_claimed :
    m_ver hostGLNXA64 blob2x3 = 36
    ∧ m_ver hostGLNXA64 blob2x3
        ≠ HeaderBaseType.sizeof .TypedBLOBHeaderBase + 4 + 4 * array2x3.dims.length := by
  decide

/-- C4 (amended): for every type code and every dimension list, after
`TBHData<H>::init(code, nDims, pSize)` the version member `m_ver` equals
`sizeof(TBHData<H>) = sizeof(H) + 4` (36 over the base header, 48 over the compressed
header), whatever the number of dimensions. -/
theorem init_ver_eq (host : Host) (H : HeaderBaseType) (m : Mem) (clsid : Int)
    (nDims : Nat) (pSize : Nat → Nat) :
    m_ver host (TBHData.init host H m clsid nDims pSize) = (H.sizeof + 4 : Nat)
    ∧ ((H.sizeof + 4 : Nat) : Int)
        = match H with
          | .TypedBLOBHeaderBase => 36
          | .TypedBLOBHeaderCompressed => 48 := by
  rw [tbhdata_init_ver]
  cases H <;> exact ⟨by decide, by decide⟩

/-- C5: for every type code, every dimension list and both header types, `validVer()`
is true on a container immediately after `TBHData::init(code, nDims, pSize)`. -/
theorem validVer_init (host : Host) (H : HeaderBaseType) (m : Mem) (clsid : Int)
    (nDims : Nat) (pSize : Nat → Nat) :
    TBHData.validVer host H (TBHData.init host H m clsid nDims pSize) = true :=
  validVer_of_ver host H _ (tbhdata_init_ver host H m clsid nDims pSize)

/-- C6 (as stated, refuted): in the container of a 2x3 double array the low byte of the
dimension count (offset 32, value 2) is changed to 7 and the version member is left as it
was, yet `validVer()` is still true. -/
theorem validVer_after_count_change :
    blob2x3 (TBHData.offsetof_m_nDims_at .TypedBLOBHeaderBase 0) = 2
    ∧ m_nDims hostGLNXA64 .TypedBLOBHeaderBase
        (store blob2x3 (TBHData.offsetof_m_nDims_at .TypedBLOBHeaderBase 0) 7) 0 = 7
    ∧ TBHData.validVer hostGLNXA64 .TypedBLOBHeaderBase
        (store blob2x3 (TBHData.offsetof_m_nDims_at .TypedBLOBHeaderBase 0) 7) = true := by
  decide

/-- C6 (amended): for every container produced by `TBHData::init`, changing the value of
any byte in the dimension-count field or in the dimension-size region (an offset `a` from
`sizeof(H)` up to the first payload byte) while leaving the version member untouched leaves
`validVer()` true: the version is compared with the fixed `sizeof(TBHData<H>)` only. -/
theorem validVer_dims_changed (host : Host) (H : HeaderBaseType) (m : Mem) (clsid : Int)
    (nDims : Nat) (pSize : Nat → Nat) (a b : Nat)
    (ha : TBHData.offsetof_m_nDims_at H 0 ≤ a
            ∧ a < TBHData.offsetof_m_nDims_at H (nDims + 1)) :
    TBHData.validVer host H (store (TBHData.init host H m clsid nDims pSize) a b) = true := by
  apply validVer_of_ver
  rw [← tbhdata_init_ver host H m clsid nDims pSize]
  unfold m_ver
  apply loadInt_congr
  intro x h1 h2
  have hs := sizeof_ge H
  rw [offsetof_m_nDims_at_eq] at ha
  rw [offsetof_m_ver_eq] at h2
  exact store_ne _ _ _ _ (by omega)

/-- Witness for the amended C6: the second byte of the first dimension size of
the 2x3 container is overwritten. -/
theorem validVer_dims_changed_witness :
    TBHData.validVer hostGLNXA64 .TypedBLOBHeaderBase
      (store (TBHData.init hostGLNXA64 .TypedBLOBHeaderBase onesMem mxDOUBLE_CLASS 2
        (arrayPtr [2, 3])) 37 9) = true :=
  validVer_dims_changed hostGLNXA64 .TypedBLOBHeaderBase onesMem mxDOUBLE_CLASS 2
    (arrayPtr [2, 3]) 37 9 (by decide)

/-! ## The magic member -/

/-- C7 (as stated, refuted): a region whose magic member differs from `TBH_MAGIC` in
exactly one byte, the last one (index 13), still passes `validMagic()`. -/
theorem validMagic_last_byte_changed :
    magicLastByteChanged 13 ≠ arrayPtr TBH_MAGIC 13
    ∧ (∀ i, i < 14 → i ≠ 13 → magicLastByteChanged i = arrayPtr TBH_MAGIC i)
    ∧ validMagic magicLastByteChanged = true := by
  decide

/-- C7 (amended): `validMagic()` returns true when all 14 stored bytes of the magic member
equal `TBH_MAGIC`, and returns false for every region in which exactly one byte of the
magic member differs from the constant and that byte is one of the first 13 (index 0
to 12); the comparison is `strncmp`, which stops at the NUL at index 12. -/
theorem validMagic_exact (m : Mem) :
    ((∀ i, i < TBH_MAGIC_MAXLEN → m (offsetof_m_magic + i) = arrayPtr TBH_MAGIC i)
      → validMagic m = true)
    ∧ (∀ j, j < 13 → m (offsetof_m_magic + j) ≠ arrayPtr TBH_MAGIC j
        → (∀ i, i < TBH_MAGIC_MAXLEN → i ≠ j
            → m (offsetof_m_magic + i) = arrayPtr TBH_MAGIC i)
        → validMagic m = false) := by
  simp only [offsetof_m_magic_eq, Nat.zero_add]
  constructor
  · intro h
    rw [validMagic_iff]
    intro j hj
    exact h j (by unfold TBH_MAGIC_MAXLEN; omega)
  · intro j hj hne _
    rw [← Bool.not_eq_true, validMagic_iff]
    intro h
    exact hne (h j (by omega))

/-- Witness for the amended C7: the magic written by `init` is accepted, and with its
first byte replaced it is rejected. -/
theorem validMagic_exact_witness :
    validMagic (storeBytes zeroMem offsetof_m_magic TBH_MAGIC) = true
    ∧ validMagic (store (storeBytes zeroMem offsetof_m_magic TBH_MAGIC) 0 77) = false :=
  ⟨(validMagic_exact (storeBytes zeroMem offsetof_m_magic TBH_MAGIC)).1 (by decide),
   (validMagic_exact (store (storeBytes zeroMem offsetof_m_magic TBH_MAGIC) 0 77)).2 0
      (by decide) (by decide) (by decide)⟩

/-! ## Type codes that cannot be stored -/

/-- C8 (as stated, refuted): `mxCELL_CLASS` is not storable, yet each of the three `init`
functions completes and leaves a header that passes `validMagic()`. -/
theorem init_unsupported_passes_validMagic :
    validClsid mxCELL_CLASS = false
    ∧ validMagic (TypedBLOBHeaderBase.init hostGLNXA64 onesMem mxCELL_CLASS) = true
    ∧ validMagic (TypedBLOBHeaderCompressed.init hostGLNXA64 onesMem mxCELL_CLASS) = true
    ∧ validMagic (TBHData.init hostGLNXA64 .TypedBLOBHeaderBase onesMem mxCELL_CLASS 2
        (arrayPtr [2, 3])) = true := by
  decide

/-- C8 (amended): `init` has no failure path and makes no storability check. For every
type code, storable or not, the base, compressed and container `init` complete and leave
a header that passes `validMagic()` and holds the code (as `int32_t`) in `m_clsid`, so
that the self-checking `validClsid()` answers what `validClsid(code)` answers; rejecting
a code that is not storable is left to the caller. -/
theorem init_any_clsid (host : Host) (H : HeaderBaseType) (m : Mem) (clsid : Int)
    (nDims : Nat) (pSize : Nat → Nat) :
    (validMagic (TypedBLOBHeaderBase.init host m clsid) = true
      ∧ validClsidSelf host (TypedBLOBHeaderBase.init host m clsid)
          = validClsid (toInt32 clsid))
    ∧ (validMagic (TypedBLOBHeaderCompressed.init host m clsid) = true
      ∧ validClsidSelf host (TypedBLOBHeaderCompressed.init host m clsid)
          = validClsid (toInt32 clsid))
    ∧ (validMagic (TBHData.init host H m clsid nDims pSize) = true
      ∧ validClsidSelf host (TBHData.init host H m clsid nDims pSize)
          = validClsid (toInt32 clsid)) := by
  have hbase : validMagic (TypedBLOBHeaderBase.init host m clsid) = true := by
    rw [validMagic_iff]
    exact fun j hj => base_init_magic host m clsid j hj
  have hcls := base_init_clsid host m clsid
  refine ⟨⟨hbase, ?_⟩, ⟨?_, ?_⟩, ?_, ?_⟩
  · unfold validClsidSelf
    rw [hcls]
  · rw [← hbase]
    exact validMagic_congr _ _
      (fun j hj => compressed_init_low host m clsid j (by omega))
  · unfold validClsidSelf
    rw [← hcls]
    exact congrArg validClsid (m_clsid_congr host _ _
      (fun x _ h2 => compressed_init_low host m clsid x (by omega)))
  · rw [← hbase]
    exact validMagic_congr _ _
      (fun j hj => tbhdata_init_low host H m clsid nDims pSize j (by omega) (by omega)
        (by omega))
  · unfold validClsidSelf
    rw [← hcls]
    exact congrArg validClsid (m_clsid_congr host _ _
      (fun x h1 h2 => tbhdata_init_low host H m clsid nDims pSize x (by omega) (by omega)
        (by omega)))

/-! ## The platform signature -/

theorem validPlatform_iff (host : Host) (m : Mem) :
    validPlatform host m = true ↔
      arrayPtr host.TBH_endian 0 = m_endian m
      ∧ cstring (fieldPtr m offsetof_m_platform) TBH_PLATFORM_MAXLEN
          = cstring (arrayPtr host.TBH_platform) TBH_PLATFORM_MAXLEN := by
  unfold validPlatform
  rw [Bool.and_eq_true, decide_eq_true_iff, decide_eq_true_iff, eq_comm (a := (0 : Int)),
    strncmp_eq_zero_iff, eq_comm (a := cstring (arrayPtr host.TBH_platform) _)]

theorem exists_first_nul (p : Nat → Nat) (n : Nat) (h : ∃ k, k < n ∧ p k = 0) :
    ∃ k, k < n ∧ p k = 0 ∧ ∀ j, j < k → p j ≠ 0 := by
  classical
  refine ⟨Nat.find h, (Nat.find_spec h).1, (Nat.find_spec h).2, ?_⟩
  intro j hj hz
  exact Nat.find_min h hj ⟨Nat.lt_trans hj (Nat.find_spec h).1, hz⟩

theorem cstring_strcpy (m : Mem) (dst : Nat) (s : List Nat) (n : Nat)
    (h : ∃ k, k < n ∧ arrayPtr s k = 0) :
    cstring (fieldPtr (strcpy m dst s) dst) n = cstring (arrayPtr s) n := by
  obtain ⟨k, hkn, hk, hnz⟩ := exists_first_nul _ _ h
  symm
  apply cstring_congr _ _ n k hkn hk
  intro j hj
  unfold fieldPtr
  rw [strcpy_inside s m dst j (fun i hi => hnz i (by omega))]

/-- C9: `validPlatform()` returns true if and only if the stored endian marker equals
`TBH_endian[0]` of the running process and the platform name held in the 11-byte member
`m_platform` equals the platform name of the running process, both read as strings of at
most 11 characters: the whole names must agree, a name that is a proper part of the other
does not match. -/
theorem validPlatform_exact (host : Host) (m : Mem) :
    (validPlatform host m = true ↔
      (arrayPtr host.TBH_endian 0 = m_endian m
        ∧ cstring (fieldPtr m offsetof_m_platform) TBH_PLATFORM_MAXLEN
            = cstring (arrayPtr host.TBH_platform) TBH_PLATFORM_MAXLEN))
    ∧ TBH_PLATFORM_MAXLEN = 11 :=
  ⟨validPlatform_iff host m, rfl⟩

/-- C10: for every type code, a header just created by `init` (base or compressed) on a
host whose platform name is NUL-terminated within its 11 bytes satisfies
`validPlatform()`; and once the platform member of that header is overwritten with a
platform string that differs from the host's as a NUL-terminated string,
`validPlatform()` is false. -/
theorem validPlatform_init (host : Host) (H : HeaderBaseType) (m : Mem) (clsid : Int)
    (other : List Nat)
    (hhost : ∃ k, k < TBH_PLATFORM_MAXLEN ∧ arrayPtr host.TBH_platform k = 0)
    (hother : ∃ k, k < TBH_PLATFORM_MAXLEN ∧ arrayPtr other k = 0)
    (hdiff : cstring (arrayPtr other) TBH_PLATFORM_MAXLEN
              ≠ cstring (arrayPtr host.TBH_platform) TBH_PLATFORM_MAXLEN) :
    validPlatform host (H.init host m clsid) = true
    ∧ validPlatform host (strcpy (H.init host m clsid) offsetof_m_platform other) = false := by
  constructor
  · rw [validPlatform_iff]
    constructor
    · rw [← base_init_endian host m clsid]
      unfold m_endian
      rw [offsetof_m_endian_eq]
      exact (headerInit_low H host m clsid 31 (by omega)).symm
    · obtain ⟨k, hkn, hk, hnz⟩ := exists_first_nul _ _ hhost
      symm
      apply cstring_congr _ _ _ k hkn hk
      intro j hj
      unfold TBH_PLATFORM_MAXLEN at hkn
      unfold fieldPtr
      rw [offsetof_m_platform_eq, headerInit_low H host m clsid (20 + j) (by omega),
        ← offsetof_m_platform_eq,
        base_init_platform host m clsid j (by omega) (fun i hi => hnz i (by omega))]
  · rw [← Bool.not_eq_true, validPlatform_iff, cstring_strcpy _ _ _ _ hother]
    exact fun h => hdiff h.2

/-- Witness for C10: a header created on `GLNXA64` whose platform member
is then overwritten with `PCWIN64`. -/
theorem validPlatform_init_witness :
    validPlatform hostGLNXA64
        (HeaderBaseType.init .TypedBLOBHeaderCompressed hostGLNXA64 onesMem mxDOUBLE_CLASS)
      = true
    ∧ validPlatform hostGLNXA64
        (strcpy (HeaderBaseType.init .TypedBLOBHeaderCompressed hostGLNXA64 onesMem
          mxDOUBLE_CLASS) offsetof_m_platform platformPCWIN64) = false :=
  validPlatform_init hostGLNXA64 .TypedBLOBHeaderCompressed onesMem mxDOUBLE_CLASS
    platformPCWIN64 ⟨7, by decide, by decide⟩ ⟨7, by decide, by decide⟩ (by decide)

/-! ## Round trip through a container -/

theorem tbhdata_init_nDims_zero (host : Host) (H : HeaderBaseType) (m : Mem) (clsid : Int)
    (nDims : Nat) (pSize : Nat → Nat) :
    m_nDims host H (TBHData.init host H m clsid nDims pSize) 0 = toInt32 nDims := by
  unfold TBHData.init m_nDims
  rw [loadInt_congr _ _ _ _ _ (fun x h1 h2 => initDims_outside _ _ _ _ _ _ (Or.inl (by
      simp only [offsetof_m_nDims_at_eq] at *; omega))),
    loadInt_storeInt, intValue_intBytes_four, toInt32_toInt32]

theorem tbhdata_init_nDims_succ (host : Host) (H : HeaderBaseType) (m : Mem) (clsid : Int)
    (nDims : Nat) (pSize : Nat → Nat) (i : Nat) (h : i < nDims) :
    m_nDims host H (TBHData.init host H m clsid nDims pSize) (i + 1) = toInt32 (pSize i) := by
  unfold TBHData.init m_nDims
  exact initDims_loadInt _ _ _ _ _ _ h

theorem tbhdata_init_clsid (host : Host) (H : HeaderBaseType) (m : Mem) (clsid : Int)
    (nDims : Nat) (pSize : Nat → Nat) :
    m_clsid host (TBHData.init host H m clsid nDims pSize) = toInt32 clsid := by
  rw [← base_init_clsid host m clsid]
  exact m_clsid_congr host _ _
    (fun x h1 h2 => tbhdata_init_low host H m clsid nDims pSize x (by omega) (by omega)
      (by omega))

theorem toInt32_of_validClsid (clsid : Int) (h : validClsid clsid = true) :
    toInt32 clsid = clsid := by
  unfold validClsid at h
  split at h
  · rename_i h'
    simp only [mxLOGICAL_CLASS, mxCHAR_CLASS, mxDOUBLE_CLASS, mxSINGLE_CLASS, mxINT8_CLASS,
      mxUINT8_CLASS, mxINT16_CLASS, mxUINT16_CLASS, mxINT32_CLASS, mxUINT32_CLASS,
      mxINT64_CLASS, mxUINT64_CLASS] at h'
    unfold toInt32
    omega
  · exact absurd h (by decide)

theorem map_arrayPtr_range (l : List Nat) :
    (List.range l.length).map (arrayPtr l) = l := by
  apply List.ext_getElem
  · simp
  · intro i h1 h2
    simp [arrayPtr, List.getElem?_eq_getElem h2]

/-- C1 (as stated, refuted): an empty `double` array of shape `(2^32 + 5) x 0` is packed
with `init` and unpacked with `createNumericArray(true)`; the array that comes back has
shape `5 x 0`, because the first size is stored as `(int32_t)4294967301 = 5`. -/
theorem roundtrip_wide_dimension :
    TBHData.createNumericArray hostGLNXA64 .TypedBLOBHeaderBase
        (storeBytes (TBHData.initItem hostGLNXA64 .TypedBLOBHeaderBase zeroMem arrayWide)
          (TBHData.getDataSelf hostGLNXA64 .TypedBLOBHeaderBase
            (TBHData.initItem hostGLNXA64 .TypedBLOBHeaderBase zeroMem arrayWide))
          arrayWide.data)
        true
      = some { classID := mxDOUBLE_CLASS, dims := [5, 0], data := [] }
    ∧ validClsid arrayWide.classID = true
    ∧ arrayWide.data.length = TypedBLOBHeaderBase.getDataSize hostGLNXA64 arrayWide
    ∧ arrayWide.dims ≠ [5, 0] := by
  decide

/-- C1 (amended): round trip. For every storable type code and every dimension list whose
length and sizes are all below `2^31` (the empty list included), if a container over
either header type is initialised from the array with `TBHData::init` and the array's
element bytes are placed at `getData()`, then `createNumericArray(true)` yields an array
with the same type code, the same dimension sizes in the same order and the same element
bytes. -/
theorem roundtrip (host : Host) (H : HeaderBaseType) (m : Mem) (pItem : MxArray)
    (hcls : validClsid pItem.classID = true)
    (hlen : pItem.dims.length < 2147483648)
    (hdims : ∀ d, d ∈ pItem.dims → d < 2147483648)
    (hdata : pItem.data.length = TypedBLOBHeaderBase.getDataSize host pItem) :
    TBHData.createNumericArray host H
        (storeBytes (TBHData.initItem host H m pItem)
          (TBHData.getDataSelf host H (TBHData.initItem host H m pItem)) pItem.data)
        true
      = some pItem := by
  obtain ⟨c, dims, data⟩ := pItem
  dsimp only at hcls hlen hdims hdata ⊢
  have hA : TBHData.getDataSelf host H (TBHData.initItem host H m ⟨c, dims, data⟩)
      = TBHData.offsetof_m_nDims_at H (dims.length + 1) := by
    unfold TBHData.getDataSelf TBHData.initItem
    rw [tbhdata_init_nDims_zero, toInt32_of_lt _ hlen, toSizeT_natCast _ (by omega),
      getData_of_lt _ _ hlen]
  rw [hA]
  have hfix : ∀ i, i ≤ dims.length →
      m_nDims host H
        (storeBytes (TBHData.initItem host H m ⟨c, dims, data⟩)
          (TBHData.offsetof_m_nDims_at H (dims.length + 1)) data) i
      = m_nDims host H (TBHData.initItem host H m ⟨c, dims, data⟩) i := by
    intro i hi
    unfold m_nDims
    apply loadInt_congr
    intro x h1 h2
    exact storeBytes_outside _ _ _ _ (Or.inl (by
      simp only [offsetof_m_nDims_at_eq] at *; omega))
  have h0 : m_nDims host H
      (storeBytes (TBHData.initItem host H m ⟨c, dims, data⟩)
        (TBHData.offsetof_m_nDims_at H (dims.length + 1)) data) 0 = (dims.length : Int) := by
    rw [hfix 0 (Nat.zero_le _)]
    unfold TBHData.initItem
    rw [tbhdata_init_nDims_zero, toInt32_of_lt _ hlen]
  have hi : ∀ i, i < dims.length →
      toSizeT (m_nDims host H
        (storeBytes (TBHData.initItem host H m ⟨c, dims, data⟩)
          (TBHData.offsetof_m_nDims_at H (dims.length + 1)) data) (i + 1))
      = arrayPtr dims i := by
    intro i hlt
    rw [hfix (i + 1) (by omega)]
    unfold TBHData.initItem
    have hd : arrayPtr dims i < 2147483648 := by
      unfold arrayPtr
      rw [List.getD_eq_getElem _ _ hlt]
      exact hdims _ (List.getElem_mem _)
    rw [tbhdata_init_nDims_succ _ _ _ _ _ _ _ hlt, toInt32_of_lt _ hd,
      toSizeT_natCast _ (by omega)]
  have hc : m_clsid host
      (storeBytes (TBHData.initItem host H m ⟨c, dims, data⟩)
        (TBHData.offsetof_m_nDims_at H (dims.length + 1)) data) = c := by
    have hs := sizeof_ge H
    rw [m_clsid_congr host (TBHData.initItem host H m ⟨c, dims, data⟩) _
      (fun x h1 h2 => storeBytes_outside _ _ _ _ (Or.inl (by
        simp only [offsetof_m_nDims_at_eq]; omega)))]
    unfold TBHData.initItem
    rw [tbhdata_init_clsid, toInt32_of_validClsid _ hcls]
  have hmap : (List.range dims.length).map (fun i => toSizeT (m_nDims host H
        (storeBytes (TBHData.initItem host H m ⟨c, dims, data⟩)
          (TBHData.offsetof_m_nDims_at H (dims.length + 1)) data) (i + 1))) = dims := by
    rw [List.map_congr_left (fun i hmem => hi i (List.mem_range.mp hmem))]
    exact map_arrayPtr_range dims
  unfold TBHData.createNumericArray TBHData.getDataSelf
  dsimp only
  rw [h0, toSizeT_natCast _ (by omega), hc, hmap, getData_of_lt _ _ hlen]
  unfold TypedBLOBHeaderBase.getDataSize mxGetNumberOfElements at hdata ⊢
  dsimp only at hdata
  simp only [mxCreateNumericArray, List.take_length, if_true]
  rw [← hdata, loadBytes_storeBytes]

/-- Witness for the amended C1: the 2x3 `double` array over the compressed header. -/
theorem roundtrip_witness :
    TBHData.createNumericArray hostGLNXA64 .TypedBLOBHeaderCompressed
        (storeBytes (TBHData.initItem hostGLNXA64 .TypedBLOBHeaderCompressed onesMem array2x3)
          (TBHData.getDataSelf hostGLNXA64 .TypedBLOBHeaderCompressed
            (TBHData.initItem hostGLNXA64 .TypedBLOBHeaderCompressed onesMem array2x3))
          array2x3.data)
        true
      = some array2x3 :=
  roundtrip hostGLNXA64 .TypedBLOBHeaderCompressed onesMem array2x3 (by decide) (by decide)
    (by decide) (by decide)

/-! ## The data size of a container -/

/-- C11 (the code at the failing input): for the container of a 2x3 `double` array the
member function `getDataSize()` returns `utils_elbytes(mxDOUBLE_CLASS)`, the size of one
element, which is also what it returns for the container of a 1x1 `double` array; with
8 bytes for a `double` that is 8, while the data of the 2x3 array is 48 bytes long, as
the static `getDataSize(pItem)` computes. -/
theorem getDataSize_one_element (utils_elbytes : Int → Nat) :
    TBHData.getDataSize utils_elbytes hostGLNXA64 blob2x3 = utils_elbytes mxDOUBLE_CLASS
    ∧ TBHData.getDataSize utils_elbytes hostGLNXA64 blob1x1 = utils_elbytes mxDOUBLE_CLASS
    ∧ TBHData.getDataSize hostGLNXA64.mxGetElementSize hostGLNXA64 blob2x3 = 8
    ∧ TypedBLOBHeaderBase.getDataSize hostGLNXA64 array2x3 = 48
    ∧ array2x3.dims.prod * hostGLNXA64.mxGetElementSize array2x3.classID = 48 := by
  have h1 : m_clsid hostGLNXA64 blob2x3 = mxDOUBLE_CLASS := by decide
  have h2 : m_clsid hostGLNXA64 blob1x1 = mxDOUBLE_CLASS := by decide
  refine ⟨?_, ?_, by decide, by decide, by decide⟩
  · unfold TBHData.getDataSize
    rw [h1]
  · unfold TBHData.getDataSize
    rw [h2]

/-! ## Compatibility with the legacy header -/

/-- C12: `old_version::check_compatibility()` returns 1: the offsets of the version,
type-code, platform, endian and dimension-array members of `TypedBLOBHeaderV1` (packed)
equal the offsets of the corresponding members of the legacy `TypedBLOBHeader` (13-byte
magic, natural alignment), namely 14, 16, 20, 31 and 32, and
`TypedBLOBHeaderV1::dataOffset(2)` equals the legacy `TBH_DATA_OFFSET(2)`, namely 44. -/
theorem check_compatibility_eq_one :
    old_version.check_compatibility = 1
    ∧ old_version.TBH_MAGIC.length = 13
    ∧ (offsetof_m_ver = old_version.offsetof_ver ∧ old_version.offsetof_ver = 14)
    ∧ (offsetof_m_clsid = old_version.offsetof_clsid ∧ old_version.offsetof_clsid = 16)
    ∧ (offsetof_m_platform = old_version.offsetof_platform
        ∧ old_version.offsetof_platform = 20)
    ∧ (offsetof_m_endian = old_version.offsetof_endian ∧ old_version.offsetof_endian = 31)
    ∧ (TBHData.offsetof_m_nDims .TypedBLOBHeaderBase = old_version.offsetof_sizeDims
        ∧ old_version.offsetof_sizeDims = 32)
    ∧ (TBHData.dataOffset .TypedBLOBHeaderBase 2 = old_version.TBH_DATA_OFFSET 2
        ∧ old_version.TBH_DATA_OFFSET 2 = 44) := by
  decide

/-! ## What `init` overwrites -/

theorem store_agree (m1 m2 : Mem) (a b x : Nat) (h : x = a ∨ m1 x = m2 x) :
    store m1 a b x = store m2 a b x := by
  unfold store
  by_cases hx : x = a
  · simp [hx]
  · simp only [hx, if_false]
    exact h.resolve_left hx

theorem storeBytes_agree (bs : List Nat) (m1 m2 : Mem) (a x : Nat)
    (h : (a ≤ x ∧ x < a + bs.length) ∨ m1 x = m2 x) :
    storeBytes m1 a bs x = storeBytes m2 a bs x := by
  by_cases hin : a ≤ x ∧ x < a + bs.length
  · have hx : x = a + (x - a) := by omega
    rw [hx, storeBytes_inside _ _ _ _ (by omega), storeBytes_inside _ _ _ _ (by omega)]
  · rw [storeBytes_outside _ _ _ _ (by omega), storeBytes_outside _ _ _ _ (by omega)]
    exact h.resolve_left hin

theorem storeInt_agree (be : Bool) (m1 m2 : Mem) (a n : Nat) (v : Int) (x : Nat)
    (h : (a ≤ x ∧ x < a + n) ∨ m1 x = m2 x) :
    storeInt be m1 a n v x = storeInt be m2 a n v x := by
  unfold storeInt
  exact storeBytes_agree _ _ _ _ _ (by rw [intBytes_length]; exact h)

theorem strcpy_agree (s : List Nat) (m1 m2 : Mem) (dst x : Nat)
    (h : (dst ≤ x ∧ x ≤ dst + strlen s) ∨ m1 x = m2 x) :
    strcpy m1 dst s x = strcpy m2 dst s x := by
  rw [strcpy_eq_storeBytes, strcpy_eq_storeBytes]
  apply storeBytes_agree
  rcases h with h | h
  · left
    simp only [List.length_append, List.length_singleton]
    unfold strlen at h
    omega
  · exact Or.inr h

theorem strcpy_above (s : List Nat) (m : Mem) (dst x : Nat) (h : dst + strlen s < x) :
    strcpy m dst s x = m x := by
  rw [strcpy_eq_storeBytes]
  apply storeBytes_outside
  right
  simp only [List.length_append, List.length_singleton]
  unfold strlen at h
  omega

theorem strlen_TBH_MAGIC : strlen TBH_MAGIC = 12 := by decide

theorem base_init_stale_magic (host : Host) (m : Mem) (clsid : Int) :
    TypedBLOBHeaderBase.init host m clsid 13 = m 13 := by
  unfold TypedBLOBHeaderBase.init
  simp only [offsetof_m_endian_eq, offsetof_m_clsid_eq, offsetof_m_ver_eq,
    offsetof_m_platform_eq, offsetof_m_magic_eq]
  rw [store_ne _ _ _ _ (by omega), storeInt_outside _ _ _ _ _ _ (by omega),
    storeInt_outside _ _ _ _ _ _ (by omega), strcpy_below _ _ _ _ (by omega),
    strcpy_above _ _ _ _ (by rw [strlen_TBH_MAGIC]; omega)]

theorem base_init_stale_platform (host : Host) (m : Mem) (clsid : Int) (x : Nat)
    (h1 : offsetof_m_platform + strlen host.TBH_platform < x) (h2 : x < offsetof_m_endian) :
    TypedBLOBHeaderBase.init host m clsid x = m x := by
  unfold TypedBLOBHeaderBase.init
  simp only [offsetof_m_endian_eq, offsetof_m_clsid_eq, offsetof_m_ver_eq,
    offsetof_m_platform_eq, offsetof_m_magic_eq] at *
  rw [store_ne _ _ _ _ (by omega), storeInt_outside _ _ _ _ _ _ (by omega),
    storeInt_outside _ _ _ _ _ _ (by omega), strcpy_above _ _ _ _ h1,
    strcpy_above _ _ _ _ (by rw [strlen_TBH_MAGIC]; omega)]

theorem base_init_agree (host : Host) (m1 m2 : Mem) (clsid : Int) (x : Nat)
    (hx : x < 32) (h13 : x ≠ 13)
    (hp : ¬ (offsetof_m_platform + strlen host.TBH_platform < x ∧ x < offsetof_m_endian)) :
    TypedBLOBHeaderBase.init host m1 clsid x = TypedBLOBHeaderBase.init host m2 clsid x := by
  unfold TypedBLOBHeaderBase.init
  simp only [offsetof_m_endian_eq, offsetof_m_clsid_eq, offsetof_m_ver_eq,
    offsetof_m_platform_eq, offsetof_m_magic_eq] at *
  apply store_agree
  by_cases h31 : x = 31
  · exact Or.inl h31
  right
  apply storeInt_agree
  by_cases hc : 16 ≤ x ∧ x < 16 + 4
  · exact Or.inl hc
  right
  apply storeInt_agree
  by_cases hv : 14 ≤ x ∧ x < 14 + 2
  · exact Or.inl hv
  right
  apply strcpy_agree
  by_cases hpl : 20 ≤ x ∧ x ≤ 20 + strlen host.TBH_platform
  · exact Or.inl hpl
  right
  apply strcpy_agree
  left
  rw [strlen_TBH_MAGIC]
  omega

/-- C13 (as stated, refuted): `TypedBLOBHeaderBase::init` run on a zeroed region and on a
region filled with `0xFF` leaves different header bytes: the last byte of the magic
member (offset 13) and the bytes of the platform member after the terminator of
`GLNXA64` (offsets 28 to 30) keep what the region held before. -/
theorem init_keeps_stale_bytes :
    loadBytes (TypedBLOBHeaderBase.init hostGLNXA64 zeroMem mxDOUBLE_CLASS) 0 32
      ≠ loadBytes (TypedBLOBHeaderBase.init hostGLNXA64 onesMem mxDOUBLE_CLASS) 0 32
    ∧ TypedBLOBHeaderBase.init hostGLNXA64 zeroMem mxDOUBLE_CLASS 13 = 0
    ∧ TypedBLOBHeaderBase.init hostGLNXA64 onesMem mxDOUBLE_CLASS 13 = 255
    ∧ loadBytes (TypedBLOBHeaderBase.init hostGLNXA64 zeroMem mxDOUBLE_CLASS) 28 3 = [0, 0, 0]
    ∧ loadBytes (TypedBLOBHeaderBase.init hostGLNXA64 onesMem mxDOUBLE_CLASS) 28 3
        = [255, 255, 255] := by
  decide

/-- C13 (amended): header `init(code)` overwrites the first 13 bytes of the magic member
(the twelve characters and their terminator), the version, the type code, the platform
name with its terminator and the endian byte: for every type code and any two prior
contents of the target region, every one of the 32 header bytes other than the last byte
of the magic member (offset 13) and the platform bytes after the terminator of the
platform name is identical after `init`, whatever the region held before. -/
theorem init_overwrites (host : Host) (m1 m2 : Mem) (clsid : Int) (x : Nat)
    (hx : x < HeaderBaseType.sizeof .TypedBLOBHeaderBase)
    (h13 : x ≠ offsetof_m_magic + 13)
    (hp : ¬ (offsetof_m_platform + strlen host.TBH_platform < x ∧ x < offsetof_m_endian)) :
    TypedBLOBHeaderBase.init host m1 clsid x = TypedBLOBHeaderBase.init host m2 clsid x :=
  base_init_agree host m1 m2 clsid x hx h13 hp

/-- Witness for the amended C13: the first byte of the version member. -/
theorem init_overwrites_witness :
    TypedBLOBHeaderBase.init hostGLNXA64 zeroMem mxDOUBLE_CLASS 14
      = TypedBLOBHeaderBase.init hostGLNXA64 onesMem mxDOUBLE_CLASS 14 :=
  init_overwrites hostGLNXA64 zeroMem onesMem mxDOUBLE_CLASS 14 (by decide) (by decide)
    (by decide)

/-! ## The compression member -/

theorem strncpy_eq_storeBytes (n : Nat) (s : List Nat) (m : Mem) (dst : Nat) :
    strncpy m dst s n
      = storeBytes m dst
          ((s.takeWhile (fun c => c ≠ 0)).take n ++ List.replicate (n - strlen s) 0) := by
  induction n generalizing s m dst with
  | zero => cases s <;> simp [strncpy, storeBytes]
  | succ n ih =>
    cases s with
    | nil =>
      simp only [strncpy]
      rw [ih]
      simp [strlen, storeBytes, List.replicate_succ]
    | cons c cs =>
      by_cases hc : c = 0
      · simp only [strncpy, hc, if_true]
        rw [ih]
        simp [strlen, storeBytes, List.replicate_succ]
      · simp only [strncpy, hc, if_false]
        rw [ih]
        simp [strlen, storeBytes, hc]

theorem setCompressor_bytes (m : Mem) (name : List Nat) :
    loadBytes (setCompressor m name) offsetof_m_compression 12
      = (name.takeWhile (fun c => c ≠ 0)).take 12 ++ List.replicate (12 - strlen name) 0 := by
  unfold setCompressor
  rw [strncpy_eq_storeBytes]
  have hlen : ((name.takeWhile (fun c => c ≠ 0)).take 12
      ++ List.replicate (12 - strlen name) 0).length = 12 := by
    simp only [List.length_append, List.length_take, List.length_replicate]
    unfold strlen
    omega
  have := loadBytes_storeBytes
    ((name.takeWhile (fun c => c ≠ 0)).take 12 ++ List.replicate (12 - strlen name) 0) m
    offsetof_m_compression
  rw [hlen] at this
  exact this

/-- C14 (as stated, refuted): after `setCompressor` with the twelve-character name
`blosclz_fast` the twelve bytes of the compression member are the twelve characters and
none of them is zero. -/
theorem setCompressor_unterminated :
    loadBytes (setCompressor onesMem compressorTwelve) offsetof_m_compression 12
      = [98, 108, 111, 115, 99, 108, 122, 95, 102, 97, 115, 116]
    ∧ 0 ∉ loadBytes (setCompressor onesMem compressorTwelve) offsetof_m_compression 12 := by
  decide

/-- C14 (amended): for every name of fewer than twelve characters passed to
`setCompressor`, the compression member afterwards holds the characters of the name
followed by zero bytes up to its width of 12 bytes, so it is null-terminated within its
width and contains a zero byte. -/
theorem setCompressor_terminated (m : Mem) (name : List Nat) (h : strlen name < 12) :
    loadBytes (setCompressor m name) offsetof_m_compression 12
      = name.takeWhile (fun c => c ≠ 0) ++ List.replicate (12 - strlen name) 0
    ∧ 0 ∈ loadBytes (setCompressor m name) offsetof_m_compression 12 := by
  rw [setCompressor_bytes]
  have htake : (name.takeWhile (fun c => c ≠ 0)).take 12 = name.takeWhile (fun c => c ≠ 0) :=
    List.take_of_length_le (by unfold strlen at h; omega)
  rw [htake]
  refine ⟨rfl, ?_⟩
  apply List.mem_append_right
  rw [List.mem_replicate]
  exact ⟨by omega, rfl⟩

/-- Witness for the amended C14: the name `blosclz`. -/
theorem setCompressor_terminated_witness :
    loadBytes (setCompressor onesMem compressorBlosclz) offsetof_m_compression 12
      = compressorBlosclz.takeWhile (fun c => c ≠ 0)
          ++ List.replicate (12 - strlen compressorBlosclz) 0
    ∧ 0 ∈ loadBytes (setCompressor onesMem compressorBlosclz) offsetof_m_compression 12 :=
  setCompressor_terminated onesMem compressorBlosclz (by decide)

/-- C17: for every type code, after `TypedBLOBHeaderCompressed::init(code)` all twelve
bytes of the compression member are zero, so it denotes the empty string, and the 32
bytes before it, which hold the magic, version, type code, platform and endian members,
are exactly what `TypedBLOBHeaderBase::init(code)` leaves there. -/
theorem compressed_init_fields (host : Host) (m : Mem) (clsid : Int) :
    loadBytes (TypedBLOBHeaderCompressed.init host m clsid) offsetof_m_compression 12
      = List.replicate 12 0
    ∧ cstring (fieldPtr (TypedBLOBHeaderCompressed.init host m clsid) offsetof_m_compression)
        12 = []
    ∧ loadBytes (TypedBLOBHeaderCompressed.init host m clsid) 0 32
        = loadBytes (TypedBLOBHeaderBase.init host m clsid) 0 32
    ∧ m_clsid host (TypedBLOBHeaderCompressed.init host m clsid) = toInt32 clsid
    ∧ m_endian (TypedBLOBHeaderCompressed.init host m clsid) = arrayPtr host.TBH_endian 0
    ∧ validMagic (TypedBLOBHeaderCompressed.init host m clsid) = true := by
  have hz : loadBytes (TypedBLOBHeaderCompressed.init host m clsid) offsetof_m_compression 12
      = List.replicate 12 0 := by
    unfold TypedBLOBHeaderCompressed.init
    rw [setCompressor_bytes]
    rfl
  refine ⟨hz, ?_, ?_, ?_, ?_, ?_⟩
  · have h0 : fieldPtr (TypedBLOBHeaderCompressed.init host m clsid) offsetof_m_compression 0
        = 0 := by
      have := congrArg (fun l => l.getD 0 1) hz
      simpa [loadBytes, fieldPtr] using this
    unfold cstring
    simp [List.range_succ_eq_map, h0]
  · exact loadBytes_congr _ _ _ _ (fun x _ h2 => compressed_init_low host m clsid x (by omega))
  · rw [← base_init_clsid host m clsid]
    exact m_clsid_congr host _ _ (fun x _ h2 => compressed_init_low host m clsid x (by omega))
  · rw [← base_init_endian host m clsid]
    unfold m_endian
    rw [offsetof_m_endian_eq]
    exact compressed_init_low host m clsid 31 (by omega)
  · have hb : validMagic (TypedBLOBHeaderBase.init host m clsid) = true := by
      rw [validMagic_iff]
      exact fun j hj => base_init_magic host m clsid j hj
    rw [← hb]
    exact validMagic_congr _ _ (fun j hj => compressed_init_low host m clsid j (by omega))

/-! ## Storable type codes -/

/-- C15: `validClsid(code)` returns true if and only if `code` is one of the twelve
primitive element kinds (logical, char, double, single, int8, uint8, int16, uint16, int32,
uint32, int64, uint64) and false for every other code, among them unknown, cell, struct,
void and function; the self-checking `validClsid()` returns the same answer for the
stored `m_clsid`. -/
theorem validClsid_iff (clsid : Int) (host : Host) (m : Mem) :
    (validClsid clsid = true ↔
      clsid ∈ [mxLOGICAL_CLASS, mxCHAR_CLASS, mxDOUBLE_CLASS, mxSINGLE_CLASS, mxINT8_CLASS,
        mxUINT8_CLASS, mxINT16_CLASS, mxUINT16_CLASS, mxINT32_CLASS, mxUINT32_CLASS,
        mxINT64_CLASS, mxUINT64_CLASS])
    ∧ (validClsid clsid = false ↔
      clsid ∉ [mxLOGICAL_CLASS, mxCHAR_CLASS, mxDOUBLE_CLASS, mxSINGLE_CLASS, mxINT8_CLASS,
        mxUINT8_CLASS, mxINT16_CLASS, mxUINT16_CLASS, mxINT32_CLASS, mxUINT32_CLASS,
        mxINT64_CLASS, mxUINT64_CLASS])
    ∧ [mxUNKNOWN_CLASS, mxCELL_CLASS, mxSTRUCT_CLASS, mxVOID_CLASS, mxFUNCTION_CLASS].map
        validClsid = [false, false, false, false, false]
    ∧ validClsidSelf host m = validClsid (m_clsid host m) := by
  have h : validClsid clsid = true ↔
      clsid ∈ [mxLOGICAL_CLASS, mxCHAR_CLASS, mxDOUBLE_CLASS, mxSINGLE_CLASS, mxINT8_CLASS,
        mxUINT8_CLASS, mxINT16_CLASS, mxUINT16_CLASS, mxINT32_CLASS, mxUINT32_CLASS,
        mxINT64_CLASS, mxUINT64_CLASS] := by
    unfold validClsid
    simp only [List.mem_cons, List.mem_singleton, List.not_mem_nil, or_false]
    split
    · rename_i h'
      simp only [true_iff]
      exact h'
    · rename_i h'
      simp only [Bool.false_eq_true, false_iff]
      exact h'
  refine ⟨h, ?_, by decide, rfl⟩
  rw [← h, Bool.not_eq_true]

/-! ## The documented layout -/

/-- C16: the packed layout is as documented. In `TypedBLOBHeaderBase` the magic is at
offset 0 (14 bytes), the version at 14 (2 bytes), the type code at 16 (4 bytes), the
platform at 20 (11 bytes), the endian byte at 31 (1 byte), and the size is 32, the sum of
the member sizes; `TypedBLOBHeaderCompressed` adds the 12-byte compression name at offset
32 and has size 44; in `TBHData<H>` the dimension count is at offset `sizeof(H)` and the
`i`-th dimension size at `sizeof(H) + 4 + 4*i`. -/
theorem packed_layout (H : HeaderBaseType) (i : Nat) :
    TypedBLOBHeaderBase.members = [14, 2, 4, 11, 1]
    ∧ [offsetof_m_magic, offsetof_m_ver, offsetof_m_clsid, offsetof_m_platform,
        offsetof_m_endian] = [0, 14, 16, 20, 31]
    ∧ HeaderBaseType.sizeof .TypedBLOBHeaderBase = 32
    ∧ HeaderBaseType.sizeof .TypedBLOBHeaderBase = 14 + 2 + 4 + 11 + 1
    ∧ TypedBLOBHeaderCompressed.members = [14, 2, 4, 11, 1, 12]
    ∧ offsetof_m_compression = 32
    ∧ HeaderBaseType.sizeof .TypedBLOBHeaderCompressed = 44
    ∧ TBHData.offsetof_m_nDims_at H 0 = H.sizeof
    ∧ TBHData.offsetof_m_nDims_at H (i + 1) = H.sizeof + 4 + 4 * i := by
  refine ⟨rfl, rfl, rfl, rfl, rfl, rfl, rfl, rfl, ?_⟩
  rw [offsetof_m_nDims_at_eq]
  omega

/-! ## The version as discriminator -/

theorem m_ver_range (host : Host) (m : Mem)
    (hb : m offsetof_m_ver < 256 ∧ m (offsetof_m_ver + 1) < 256) :
    -32768 ≤ m_ver host m ∧ m_ver host m < 32768 := by
  obtain ⟨h0, h1⟩ := hb
  unfold m_ver loadInt intValue
  simp only [loadBytes]
  cases host.bigEndian <;>
    simp only [Bool.false_eq_true, if_false, if_true, List.reverse_cons, List.reverse_nil,
      List.nil_append, List.cons_append, leValue] <;>
    norm_num <;> split <;> omega

theorem validVer_congr (host : Host) (H : HeaderBaseType) (m m' : Mem)
    (h0 : m' offsetof_m_ver = m offsetof_m_ver)
    (h1 : m' (offsetof_m_ver + 1) = m (offsetof_m_ver + 1)) :
    TBHData.validVer host H m' = TBHData.validVer host H m := by
  unfold TBHData.validVer m_ver
  rw [loadInt_congr _ m m' _ _ (fun x hx1 hx2 => by
    rcases Nat.eq_or_lt_of_le hx1 with he | hl
    · rw [← he]; exact h0
    · have : x = offsetof_m_ver + 1 := by omega
      rw [this]; exact h1)]

/-- C18: the version member discriminates the two container formats. For every header
content (the two bytes of the version member being bytes), `TypedBLOBHeaderV1::validVer()`
holds iff `m_ver = 36` and `TypedBLOBHeaderV2::validVer()` holds iff `m_ver = 48`, so no
buffer is accepted by both; and the result is the same for any two buffers that agree on
the version member, whatever their dimension count, dimension sizes and payload. -/
theorem validVer_discriminates (host : Host) (m : Mem)
    (hb : m offsetof_m_ver < 256 ∧ m (offsetof_m_ver + 1) < 256) :
    (TBHData.validVer host .TypedBLOBHeaderBase m = true ↔ m_ver host m = 36)
    ∧ (TBHData.validVer host .TypedBLOBHeaderCompressed m = true ↔ m_ver host m = 48)
    ∧ ¬ (TBHData.validVer host .TypedBLOBHeaderBase m = true
          ∧ TBHData.validVer host .TypedBLOBHeaderCompressed m = true)
    ∧ ∀ (H : HeaderBaseType) (m' : Mem), m' offsetof_m_ver = m offsetof_m_ver →
        m' (offsetof_m_ver + 1) = m (offsetof_m_ver + 1) →
        TBHData.validVer host H m' = TBHData.validVer host H m := by
  have hr := m_ver_range host m hb
  have h1 : TBHData.validVer host .TypedBLOBHeaderBase m = true ↔ m_ver host m = 36 := by
    unfold TBHData.validVer
    rw [decide_eq_true_iff, show TBHData.sizeof .TypedBLOBHeaderBase = 36 from rfl]
    unfold toSizeT
    omega
  have h2 : TBHData.validVer host .TypedBLOBHeaderCompressed m = true ↔ m_ver host m = 48 := by
    unfold TBHData.validVer
    rw [decide_eq_true_iff, show TBHData.sizeof .TypedBLOBHeaderCompressed = 48 from rfl]
    unfold toSizeT
    omega
  refine ⟨h1, h2, ?_, fun H m' h0 h1' => validVer_congr host H m m' h0 h1'⟩
  rw [h1, h2]
  omega

/-- Witness for C18: the container of the 2x3 array is a V1 container and not a V2
container. -/
theorem validVer_discriminates_witness :
    (TBHData.validVer hostGLNXA64 .TypedBLOBHeaderBase blob2x3 = true
        ↔ m_ver hostGLNXA64 blob2x3 = 36)
    ∧ ¬ (TBHData.validVer hostGLNXA64 .TypedBLOBHeaderBase blob2x3 = true
          ∧ TBHData.validVer hostGLNXA64 .TypedBLOBHeaderCompressed blob2x3 = true) :=
  ⟨(validVer_discriminates hostGLNXA64 blob2x3 (by decide)).1,
   (validVer_discriminates hostGLNXA64 blob2x3 (by decide)).2.2.1⟩

/-! ## The magic as a bounded C string -/

theorem loadBytes_eq_iff (l : List Nat) (m : Mem) (a : Nat) :
    loadBytes m a l.length = l ↔ ∀ j, j < l.length → m (a + j) = l.getD j 0 := by
  induction l generalizing a with
  | nil => simp [loadBytes]
  | cons b bs ih =>
    simp only [List.length_cons, loadBytes, List.cons.injEq, ih]
    constructor
    · rintro ⟨h0, hs⟩ j hj
      cases j with
      | zero => simpa using h0
      | succ j =>
        have := hs j (by omega)
        rw [show a + (j + 1) = a + 1 + j by omega, this]
        simp
    · intro h
      refine ⟨by simpa using h 0 (by omega), fun j hj => ?_⟩
      have := h (j + 1) (by omega)
      rw [show a + 1 + j = a + (j + 1) by omega, this]
      simp

/-- C19: `validMagic()` compares as a bounded C string. It returns true if and only if
the first 13 bytes of the magic member are `mkSQLite.tbh` followed by a zero byte; the
14th byte (index 13) is never inspected, so changing it does not change the answer; and
none of the `init` functions writes it. -/
theorem validMagic_bounded (m : Mem) (host : Host) (H : HeaderBaseType) (clsid : Int)
    (nDims : Nat) (pSize : Nat → Nat) (b : Nat) :
    (validMagic m = true ↔
      loadBytes m offsetof_m_magic 13
        = [109, 107, 83, 81, 76, 105, 116, 101, 46, 116, 98, 104, 0])
    ∧ validMagic (store m (offsetof_m_magic + 13) b) = validMagic m
    ∧ TypedBLOBHeaderBase.init host m clsid (offsetof_m_magic + 13)
        = m (offsetof_m_magic + 13)
    ∧ H.init host m clsid (offsetof_m_magic + 13) = m (offsetof_m_magic + 13)
    ∧ TBHData.init host H m clsid nDims pSize (offsetof_m_magic + 13)
        = m (offsetof_m_magic + 13) := by
  simp only [offsetof_m_magic_eq, Nat.zero_add]
  refine ⟨?_, ?_, base_init_stale_magic host m clsid, ?_, ?_⟩
  · rw [validMagic_iff]
    have h := loadBytes_eq_iff [109, 107, 83, 81, 76, 105, 116, 101, 46, 116, 98, 104, 0] m 0
    simp only [List.length_cons, List.length_nil, Nat.zero_add] at h
    rw [h]
    constructor
    · intro hall j hj
      have := hall j (by omega)
      rw [this]
      interval_cases j <;> rfl
    · intro hall j hj
      have := hall j (by omega)
      rw [this]
      interval_cases j <;> rfl
  · exact validMagic_congr _ _ (fun j hj => store_ne _ _ _ _ (by omega))
  · rw [headerInit_low H host m clsid 13 (by omega)]
    exact base_init_stale_magic host m clsid
  · rw [tbhdata_init_low host H m clsid nDims pSize 13 (by omega) (by omega) (by omega)]
    exact base_init_stale_magic host m clsid

/-! ## Dimensions as 32-bit values -/

/-- C20: `TBHData::init` stores the dimension count and each dimension size as the signed
32-bit value congruent to the host value modulo `2^32`. When the count is below `2^31`
the stored count equals it, and a size below `2^31` is stored exactly and is
non-negative; a size `s >= 2^31` is stored as a value different from `s`, and (for `s`
below `2^64 - 2^31`) the size read back by `createNumericArray` differs from `s`. -/
theorem init_dims_int32 (host : Host) (H : HeaderBaseType) (m : Mem) (clsid : Int)
    (nDims : Nat) (pSize : Nat → Nat) :
    (m_nDims host H (TBHData.init host H m clsid nDims pSize) 0 = toInt32 nDims
      ∧ (toInt32 nDims - nDims) % 4294967296 = 0
      ∧ (nDims < 2147483648 →
          m_nDims host H (TBHData.init host H m clsid nDims pSize) 0 = nDims))
    ∧ ∀ i, i < nDims →
        (m_nDims host H (TBHData.init host H m clsid nDims pSize) (i + 1)
            = toInt32 (pSize i)
          ∧ (toInt32 (pSize i) - pSize i) % 4294967296 = 0
          ∧ -2147483648 ≤ toInt32 (pSize i) ∧ toInt32 (pSize i) < 2147483648)
        ∧ (pSize i < 2147483648 →
            m_nDims host H (TBHData.init host H m clsid nDims pSize) (i + 1) = pSize i
            ∧ 0 ≤ m_nDims host H (TBHData.init host H m clsid nDims pSize) (i + 1))
        ∧ (2147483648 ≤ pSize i →
            m_nDims host H (TBHData.init host H m clsid nDims pSize) (i + 1) ≠ pSize i
            ∧ (pSize i < 18446744071562067968 →
                toSizeT (m_nDims host H (TBHData.init host H m clsid nDims pSize) (i + 1))
                  ≠ pSize i)) := by
  refine ⟨⟨tbhdata_init_nDims_zero host H m clsid nDims pSize, ?_, ?_⟩, ?_⟩
  · unfold toInt32; omega
  · intro h
    rw [tbhdata_init_nDims_zero, toInt32_of_lt _ h]
  · intro i hi
    rw [tbhdata_init_nDims_succ host H m clsid nDims pSize i hi]
    refine ⟨⟨rfl, ?_, ?_, ?_⟩, ?_, ?_⟩
    · unfold toInt32; omega
    · unfold toInt32; omega
    · unfold toInt32; omega
    · intro h
      rw [toInt32_of_lt _ h]
      exact ⟨rfl, by omega⟩
    · intro h
      refine ⟨?_, ?_⟩
      · unfold toInt32; omega
      · intro h2
        unfold toInt32 toSizeT
        omega

/-- Witness for C20: in the container of a `(2^32 + 5) x 0` array the count 2 is stored
exactly, the first size is stored as 5, and the second size 0 is stored exactly. -/
theorem init_dims_int32_witness :
    m_nDims hostGLNXA64 .TypedBLOBHeaderBase
        (TBHData.init hostGLNXA64 .TypedBLOBHeaderBase zeroMem mxDOUBLE_CLASS 2
          (arrayPtr [4294967301, 0])) 0 = (2 : Nat)
    ∧ m_nDims hostGLNXA64 .TypedBLOBHeaderBase
        (TBHData.init hostGLNXA64 .TypedBLOBHeaderBase zeroMem mxDOUBLE_CLASS 2
          (arrayPtr [4294967301, 0])) (0 + 1) ≠ (arrayPtr [4294967301, 0] 0 : Nat)
    ∧ m_nDims hostGLNXA64 .TypedBLOBHeaderBase
        (TBHData.init hostGLNXA64 .TypedBLOBHeaderBase zeroMem mxDOUBLE_CLASS 2
          (arrayPtr [4294967301, 0])) (1 + 1) = (arrayPtr [4294967301, 0] 1 : Nat) :=
  ⟨(init_dims_int32 hostGLNXA64 .TypedBLOBHeaderBase zeroMem mxDOUBLE_CLASS 2
      (arrayPtr [4294967301, 0])).1.2.2 (by decide),
   (((init_dims_int32 hostGLNXA64 .TypedBLOBHeaderBase zeroMem mxDOUBLE_CLASS 2
      (arrayPtr [4294967301, 0])).2 0 (by decide)).2.2 (by decide)).1,
   (((init_dims_int32 hostGLNXA64 .TypedBLOBHeaderBase zeroMem mxDOUBLE_CLASS 2
      (arrayPtr [4294967301, 0])).2 1 (by decide)).2.1 (by decide)).1⟩

end TypedBlobs
